import Mathlib

/-!
# terraform-provider-get: request construction and checksum formatting

A shallow embedding of `get/resource_artifact.go`.

Go strings are byte sequences, so a Go `string` is modelled as a list of bytes
(`Str`).  The library functions the resource handlers call (`encoding/hex`,
`encoding/base64`, `strings.SplitN`, `net/url`, the go-getter `FileChecksum`)
are embedded as executable definitions that follow the library sources; the
fetch engine (`client.Get`, `client.GetChecksum`) is a parameter of the
handlers.  The filesystem is a state of directory entries with path resolution
(`.`, `..`, repeated and trailing slashes, relative paths, symbolic links), on
which `os.Stat` and `os.Remove` act; `(*ResourceDiff).ForceNew` fails on a key
without change, as in the plugin SDK.
-/

namespace TfGet

/-! ## Bytes and Go strings -/

/-- A Go `byte`. -/
abbrev Byte := Fin 256

/-- A Go `string` (equally a `[]byte`): a finite sequence of bytes. -/
abbrev Str := List Byte

deriving instance DecidableEq for Except

/-! Bytes are written by their ASCII code: 32 space, 34 `"`, 35 `#`, 37 `%`,
38 `&`, 43 `+`, 45 `-`, 46 `.`, 47 `/`, 48-57 `0`-`9`, 58 `:`, 59 `;`, 61 `=`,
63 `?`, 64 `@`, 65-90 `A`-`Z`, 91 `[`, 93 `]`, 95 `_`, 97-122 `a`-`z`,
126 `~`. -/

/-- UTF-8 encoding of one code point, as the Go compiler stores a string literal. -/
def utf8 (c : Char) : Str :=
  let n := c.toNat
  if n < 0x80 then [Fin.ofNat n]
  else if n < 0x800 then [Fin.ofNat (0xC0 + n / 64), Fin.ofNat (0x80 + n % 64)]
  else if n < 0x10000 then
    [Fin.ofNat (0xE0 + n / 4096), Fin.ofNat (0x80 + n / 64 % 64), Fin.ofNat (0x80 + n % 64)]
  else
    [Fin.ofNat (0xF0 + n / 262144), Fin.ofNat (0x80 + n / 4096 % 64),
      Fin.ofNat (0x80 + n / 64 % 64), Fin.ofNat (0x80 + n % 64)]

/-- The Go string written as the literal `s`. -/
def lit (s : String) : Str := s.toList.flatMap utf8

/-! ## `encoding/hex` -/

/-- The lower-case digit of `hex.hextable` for a nibble. -/
def hexDigit (n : Nat) : Byte :=
  if n < 10 then Fin.ofNat (48 + n) else Fin.ofNat (97 + (n - 10))

/-- Go `hex.EncodeToString`: two lower-case digits per byte, high nibble first. -/
def hexEncodeToString : List Byte → Str
  | [] => []
  | b :: bs => hexDigit (b.val / 16) :: hexDigit (b.val % 16) :: hexEncodeToString bs

/-- Go `hex.fromHexChar`: the value of a hexadecimal digit, of either case. -/
def fromHexChar (c : Byte) : Option Nat :=
  if 48 ≤ c.val ∧ c.val ≤ 57 then some (c.val - 48)
  else if 97 ≤ c.val ∧ c.val ≤ 102 then some (c.val - 97 + 10)
  else if 65 ≤ c.val ∧ c.val ≤ 70 then some (c.val - 65 + 10)
  else none

/-- The errors of `hex.DecodeString`. -/
inductive HexError where
  | invalidByte (b : Byte)
  | errLength
  deriving DecidableEq

/-- Go `hex.DecodeString`: decodes pairs of digits; an invalid digit is reported
before an odd length. -/
def hexDecodeString : Str → Except HexError (List Byte)
  | [] => .ok []
  | [p] =>
    match fromHexChar p with
    | none => .error (.invalidByte p)
    | some _ => .error .errLength
  | p :: q :: rest =>
    match fromHexChar p with
    | none => .error (.invalidByte p)
    | some a =>
      match fromHexChar q with
      | none => .error (.invalidByte q)
      | some b =>
        match hexDecodeString rest with
        | .error e => .error e
        | .ok out => .ok (Fin.ofNat (a * 16 + b) :: out)

/-! ## `encoding/base64` -/

/-- The standard alphabet `A-Z a-z 0-9 + /` of RFC 4648 (`base64.encodeStd`). -/
def base64Char (n : Nat) : Byte :=
  if n < 26 then Fin.ofNat (65 + n)
  else if n < 52 then Fin.ofNat (97 + (n - 26))
  else if n < 62 then Fin.ofNat (48 + (n - 52))
  else if n = 62 then 43
  else 47

/-- Go `Encoding.EncodeToString` over the standard alphabet; `pad` selects
`StdEncoding` (padding with `=`) against `RawStdEncoding` (no padding). -/
def base64Encode (pad : Bool) : List Byte → Str
  | [] => []
  | [a] =>
    [base64Char (a.val / 4), base64Char (a.val % 4 * 16)] ++ (if pad then [61, 61] else [])
  | [a, b] =>
    [base64Char (a.val / 4), base64Char (a.val % 4 * 16 + b.val / 16),
      base64Char (b.val % 16 * 4)] ++ (if pad then [61] else [])
  | a :: b :: c :: rest =>
    base64Char (a.val / 4) :: base64Char (a.val % 4 * 16 + b.val / 16) ::
      base64Char (b.val % 16 * 4 + c.val / 64) :: base64Char (c.val % 64) ::
        base64Encode pad rest

/-- Go `base64.StdEncoding.EncodeToString`. -/
def base64StdEncodeToString (src : List Byte) : Str := base64Encode true src

/-- Go `base64.RawStdEncoding.EncodeToString`. -/
def base64RawStdEncodeToString (src : List Byte) : Str := base64Encode false src

/-- The value of a character of the standard alphabet (`Encoding.decodeMap`). -/
def base64Val (c : Byte) : Option Nat :=
  if 65 ≤ c.val ∧ c.val ≤ 90 then some (c.val - 65)
  else if 97 ≤ c.val ∧ c.val ≤ 122 then some (c.val - 97 + 26)
  else if 48 ≤ c.val ∧ c.val ≤ 57 then some (c.val - 48 + 52)
  else if c.val = 43 then some 62
  else if c.val = 47 then some 63
  else none

/-- Decoding of padded standard base64 (RFC 4648 section 4): quanta of four
characters, the last one possibly ending in one or two `=`.  This is what
`base64.StdEncoding.DecodeString` computes on input without line breaks. -/
def base64StdDecodeString : Str → Option (List Byte)
  | [] => some []
  | c0 :: c1 :: c2 :: c3 :: rest =>
    match base64Val c0, base64Val c1 with
    | some v0, some v1 =>
      if c3 = 61 ∧ rest = [] then
        if c2 = 61 then some [Fin.ofNat (v0 * 4 + v1 / 16)]
        else
          match base64Val c2 with
          | some v2 => some [Fin.ofNat (v0 * 4 + v1 / 16), Fin.ofNat (v1 % 16 * 16 + v2 / 4)]
          | none => none
      else
        match base64Val c2, base64Val c3 with
        | some v2, some v3 =>
          match base64StdDecodeString rest with
          | some out =>
            some (Fin.ofNat (v0 * 4 + v1 / 16) :: Fin.ofNat (v1 % 16 * 16 + v2 / 4) ::
              Fin.ofNat (v2 % 4 * 64 + v3) :: out)
          | none => none
        | _, _ => none
    | _, _ => none
  | _ => none

/-! ## `strings` -/

/-- Go `strings.Cut` with a one-byte separator: the text before and after the
first occurrence of `sep`, or `none` when `sep` does not occur. -/
def cut (sep : Byte) : Str → Option (Str × Str)
  | [] => none
  | c :: cs =>
    if c = sep then some ([], cs)
    else
      match cut sep cs with
      | none => none
      | some (before, after) => some (c :: before, after)

/-- Go `strings.SplitN(s, sep, 2)` with a one-byte separator: `[s]` when `sep`
does not occur, else the text before and the text after its first occurrence. -/
def splitN2 (s : Str) (sep : Byte) : List Str :=
  match cut sep s with
  | none => [s]
  | some (before, after) => [before, after]

/-! ## go-getter `FileChecksum` and `resourceArtifactSum` -/

/-- The go-getter `FileChecksum`, reduced to the fields `String()` reads
(`Typ` is the Go field `Type`). -/
structure FileChecksum where
  Typ : Str
  Value : List Byte
  deriving DecidableEq

/-- Go `(*FileChecksum).String`: `c.Type + ":" + hex.EncodeToString(c.Value)`. -/
def FileChecksum.String (c : FileChecksum) : Str :=
  c.Typ ++ 58 :: hexEncodeToString c.Value

/-- Lines 230-241 of `resourceArtifactSum`: the result for a non-nil checksum
whose `String()` is `sum`. -/
def resourceArtifactSumOf (sum : Str) : Str × Str × Bool :=
  let sumSegments := splitN2 sum 58
  if sumSegments.length ≠ 2 then (sum, [], true)
  else
    match hexDecodeString (sumSegments.getD 1 []) with
    | .error _ => (sum, [], true)
    | .ok raw => (sum, base64StdEncodeToString raw, true)

/-- The function `resourceArtifactSum`: the hex and base64 formatted sum of a
(possibly nil) `FileChecksum`, with a flag telling whether a checksum was
present. -/
def resourceArtifactSum (checksum : Option FileChecksum) : Str × Str × Bool :=
  match checksum with
  | none => ([], [], false)
  | some c => resourceArtifactSumOf c.String

/-! ## `net/url`: escaping

The definitions below follow `net/url` of the Go standard library (the
releases with `URL.OmitHost`, Go 1.19 and later). -/

/-- The `encoding` modes of `net/url`. -/
inductive Encoding where
  | encodePath
  | encodePathSegment
  | encodeHost
  | encodeZone
  | encodeUserPassword
  | encodeQueryComponent
  | encodeFragment
  deriving DecidableEq

/-- The errors of `net/url` parsing, by kind. -/
inductive UrlError where
  | escapeError
  | invalidHostError
  | invalidControlCharacter
  | missingProtocolScheme
  | firstPathSegmentColon
  | missingBracket
  | invalidPort
  | invalidUserinfo
  | invalidSemicolon
  deriving DecidableEq

/-- ASCII letters and digits. -/
def isAlnum (c : Byte) : Bool :=
  (97 ≤ c.val && c.val ≤ 122) || (65 ≤ c.val && c.val ≤ 90) || (48 ≤ c.val && c.val ≤ 57)

/-- Go `url.ishex`. -/
def ishex (c : Byte) : Bool :=
  (48 ≤ c.val && c.val ≤ 57) || (97 ≤ c.val && c.val ≤ 102) || (65 ≤ c.val && c.val ≤ 70)

/-- Go `url.unhex`. -/
def unhex (c : Byte) : Nat :=
  if 48 ≤ c.val ∧ c.val ≤ 57 then c.val - 48
  else if 97 ≤ c.val ∧ c.val ≤ 102 then c.val - 97 + 10
  else if 65 ≤ c.val ∧ c.val ≤ 70 then c.val - 65 + 10
  else 0

/-- The digit of `url.upperhex` for a nibble. -/
def upperhex (n : Nat) : Byte :=
  if n < 10 then Fin.ofNat (48 + n) else Fin.ofNat (65 + (n - 10))

/-- Go `url.shouldEscape`: whether byte `c` must be escaped in the URL part
`mode`, after RFC 3986. -/
def shouldEscape (c : Byte) (mode : Encoding) : Bool :=
  if isAlnum c then false
  else if (mode = .encodeHost ∨ mode = .encodeZone) ∧
      c.val ∈ [33, 36, 38, 39, 40, 41, 42, 43, 44, 59, 61, 58, 91, 93, 60, 62, 34] then false
  else if c.val ∈ [45, 95, 46, 126] then false
  else if c.val ∈ [36, 38, 43, 44, 47, 58, 59, 61, 63, 64] ∧
      mode ∈ [Encoding.encodePath, .encodePathSegment, .encodeUserPassword,
        .encodeQueryComponent, .encodeFragment] then
    match mode with
    | .encodePath => c.val = 63
    | .encodePathSegment => c.val = 47 || c.val = 59 || c.val = 44 || c.val = 63
    | .encodeUserPassword => c.val = 64 || c.val = 47 || c.val = 63 || c.val = 58
    | .encodeQueryComponent => true
    | _ => false
  else if mode = .encodeFragment ∧ c.val ∈ [33, 40, 41, 42] then false
  else true

/-- Go `url.escape`: a space becomes `+` in a query component, every other byte
that `shouldEscape` becomes `%XX` with upper-case digits. -/
def escape (mode : Encoding) : Str → Str
  | [] => []
  | c :: cs =>
    if shouldEscape c mode then
      if c.val = 32 ∧ mode = .encodeQueryComponent then 43 :: escape mode cs
      else 37 :: upperhex (c.val / 16) :: upperhex (c.val % 16) :: escape mode cs
    else c :: escape mode cs

/-- Go `url.QueryEscape`. -/
def QueryEscape (s : Str) : Str := escape .encodeQueryComponent s

/-- Go `url.unescape`: the validating scan and the decoding scan of the library in
one pass; the error is the one the validating scan meets first. -/
def unescape (mode : Encoding) : Str → Except UrlError Str
  | [] => .ok []
  | c :: rest =>
    if c.val = 37 then
      match rest with
      | a :: b :: rest2 =>
        if ¬ (ishex a ∧ ishex b) then .error .escapeError
        else if mode = .encodeHost ∧ unhex a < 8 ∧ ¬ (a.val = 50 ∧ b.val = 53) then
          .error .escapeError
        else if mode = .encodeZone ∧ ¬ (a.val = 50 ∧ b.val = 53) ∧ unhex a * 16 + unhex b ≠ 32 ∧
            shouldEscape (Fin.ofNat (unhex a * 16 + unhex b)) .encodeHost then
          .error .escapeError
        else
          match unescape mode rest2 with
          | .error e => .error e
          | .ok out => .ok (Fin.ofNat (unhex a * 16 + unhex b) :: out)
      | _ => .error .escapeError
    else if (mode = .encodeHost ∨ mode = .encodeZone) ∧ c.val ≠ 43 ∧ c.val < 128 ∧
        shouldEscape c .encodeHost then
      .error .invalidHostError
    else
      match unescape mode rest with
      | .error e => .error e
      | .ok out =>
        .ok ((if c.val = 43 ∧ mode = .encodeQueryComponent then 32 else c) :: out)

/-- Go `url.QueryUnescape`. -/
def QueryUnescape (s : Str) : Except UrlError Str := unescape .encodeQueryComponent s

/-! ## `net/url`: query values -/

/-- Go `url.Values`, a Go `map[string][]string`, as an association list.  Only
`Values.get` and the set of keys are observable; `Values.put` keeps the keys
distinct. -/
abbrev Values := List (Str × List Str)

/-- The map index expression `v[key]`: the nil slice when `key` is absent. -/
def Values.get (v : Values) (key : Str) : List Str :=
  match v.lookup key with
  | some vs => vs
  | none => []

/-- The map assignment `v[key] = vs`. -/
def Values.put (v : Values) (key : Str) (vs : List Str) : Values :=
  (key, vs) :: v.filter (fun e => e.1 ≠ key)

/-- Go `Values.Set`: `v[key] = []string{value}`. -/
def Values.Set (v : Values) (key value : Str) : Values := v.put key [value]

/-- The statement `m[key] = append(m[key], value)` of `parseQuery`. -/
def Values.Add (v : Values) (key value : Str) : Values := v.put key (v.get key ++ [value])

/-- The keys of the map, each once. -/
def Values.keys (v : Values) : List Str := (v.map Prod.fst).dedup

/-- Splits at every occurrence of `sep` (`strings.Split` with a one-byte
separator); the result is never empty. -/
def splitOn (sep : Byte) : Str → List Str
  | [] => [[]]
  | c :: cs =>
    if c = sep then [] :: splitOn sep cs
    else
      match splitOn sep cs with
      | [] => [[c]]
      | seg :: segs => (c :: seg) :: segs

/-- One iteration of the loop of `url.parseQuery` on the segment `seg` cut
off at `&`: the decoded pair, `none` for an empty segment (skipped silently),
or the error that makes the loop skip the segment. -/
def parsePair (seg : Str) : Except UrlError (Option (Str × Str)) :=
  if (59 : Byte) ∈ seg then .error .invalidSemicolon
  else if seg = [] then .ok none
  else
    let kv : Str × Str :=
      match cut 61 seg with
      | some (k, v) => (k, v)
      | none => (seg, [])
    match QueryUnescape kv.1 with
    | .error e => .error e
    | .ok key =>
      match QueryUnescape kv.2 with
      | .error e => .error e
      | .ok value => .ok (some (key, value))

/-- The pairs `url.parseQuery` appends to the map, in the order of the query
string; segments in error are skipped. -/
def queryPairs (query : Str) : List (Str × Str) :=
  (splitOn 38 query).filterMap fun seg =>
    match parsePair seg with
    | .ok (some kv) => some kv
    | _ => none

/-- The error `url.ParseQuery` returns: the first one met, if any. -/
def queryError (query : Str) : Option UrlError :=
  (splitOn 38 query).findSome? fun seg =>
    match parsePair seg with
    | .error e => some e
    | .ok _ => none

/-- Go `url.ParseQuery`: the map built from all well-formed pairs, together with
the first error. -/
def ParseQuery (query : Str) : Values × Option UrlError :=
  ((queryPairs query).foldl (fun m kv => m.Add kv.1 kv.2) [], queryError query)

/-- Go `Values.Encode`: `key=value` pairs joined by `&`, keys in ascending (byte
wise lexicographic) order, values of one key in their stored order. -/
def Values.Encode (v : Values) : Str :=
  [38].intercalate
    ((v.keys.insertionSort (· ≤ ·)).flatMap fun k =>
      (v.get k).map fun value => QueryEscape k ++ 61 :: QueryEscape value)

/-! ## `net/url`: URLs -/

/-- Go `url.Userinfo`. -/
structure Userinfo where
  username : Str
  password : Str
  passwordSet : Bool
  deriving DecidableEq

/-- Go `url.URL`. -/
structure URL where
  Scheme : Str := []
  Opaque : Str := []
  User : Option Userinfo := none
  Host : Str := []
  Path : Str := []
  RawPath : Str := []
  OmitHost : Bool := false
  ForceQuery : Bool := false
  RawQuery : Str := []
  Fragment : Str := []
  RawFragment : Str := []
  deriving DecidableEq

/-- Go `url.stringContainsCTLByte`. -/
def stringContainsCTLByte (s : Str) : Bool := s.any fun b => b.val < 32 || b.val = 127

/-- ASCII lower-casing of one byte (`strings.ToLower` on a scheme, which is ASCII). -/
def toLowerByte (c : Byte) : Byte := if 65 ≤ c.val ∧ c.val ≤ 90 then Fin.ofNat (c.val + 32) else c

/-- The loop of `url.getScheme` from index `i` on; `pre` holds the bytes
already scanned, in reverse. -/
def getSchemeLoop (rawURL : Str) (pre : Str) : Str → Except UrlError (Str × Str)
  | [] => .ok ([], rawURL)
  | c :: cs =>
    if (97 ≤ c.val ∧ c.val ≤ 122) ∨ (65 ≤ c.val ∧ c.val ≤ 90) then getSchemeLoop rawURL (c :: pre) cs
    else if (48 ≤ c.val ∧ c.val ≤ 57) ∨ c.val = 43 ∨ c.val = 45 ∨ c.val = 46 then
      if pre = [] then .ok ([], rawURL) else getSchemeLoop rawURL (c :: pre) cs
    else if c.val = 58 then
      if pre = [] then .error .missingProtocolScheme else .ok (pre.reverse, cs)
    else .ok ([], rawURL)

/-- Go `url.getScheme`: the scheme before the first `:` and the rest, or an empty
scheme when the text does not start with one. -/
def getScheme (rawURL : Str) : Except UrlError (Str × Str) := getSchemeLoop rawURL [] rawURL

/-- Go `strings.LastIndex` with a one-byte separator, as the split it induces:
the text before and after the last occurrence of `sep`. -/
def cutLast (sep : Byte) (s : Str) : Option (Str × Str) :=
  match cut sep s.reverse with
  | none => none
  | some (after, before) => some (before.reverse, after.reverse)

/-- Go `strings.Index(s, sub)` as the split it induces: the text before the first
occurrence of `sub`, and the text from that occurrence on. -/
def cutAt (sub : Str) : Str → Option (Str × Str)
  | [] => if sub = [] then some ([], []) else none
  | c :: cs =>
    if sub.isPrefixOf (c :: cs) then some ([], c :: cs)
    else
      match cutAt sub cs with
      | none => none
      | some (before, fromSub) => some (c :: before, fromSub)

/-- Go `url.validOptionalPort`. -/
def validOptionalPort (port : Str) : Bool :=
  match port with
  | [] => true
  | c :: ds => c.val = 58 && ds.all fun b => 48 ≤ b.val && b.val ≤ 57

/-- Go `url.validUserinfo`; a byte outside ASCII decodes to a rune that is not
allowed. -/
def validUserinfo (s : Str) : Bool :=
  s.all fun r => isAlnum r ||
    decide (r.val ∈ [45, 46, 95, 58, 126, 33, 36, 38, 39, 40, 41, 42, 43, 44, 59, 61, 37, 64])

/-- Go `url.parseHost`. -/
def parseHost (host : Str) : Except UrlError Str :=
  if (lit "[").isPrefixOf host then
    match cutLast 93 host with
    | none => .error .missingBracket
    | some (inside, colonPort) =>
      if ¬ validOptionalPort colonPort then .error .invalidPort
      else
        match cutAt (lit "%25") inside with
        | some (h1, zoneToBracket) =>
          match unescape .encodeHost h1 with
          | .error e => .error e
          | .ok host1 =>
            match unescape .encodeZone zoneToBracket with
            | .error e => .error e
            | .ok host2 =>
              match unescape .encodeHost (93 :: colonPort) with
              | .error e => .error e
              | .ok host3 => .ok (host1 ++ host2 ++ host3)
        | none => unescape .encodeHost host
  else
    match cutLast 58 host with
    | some (_, port) =>
      if ¬ validOptionalPort (58 :: port) then .error .invalidPort
      else unescape .encodeHost host
    | none => unescape .encodeHost host

/-- Go `url.parseAuthority`. -/
def parseAuthority (authority : Str) : Except UrlError (Option Userinfo × Str) :=
  match cutLast 64 authority with
  | none =>
    match parseHost authority with
    | .error e => .error e
    | .ok host => .ok (none, host)
  | some (userinfo, hostPart) =>
    match parseHost hostPart with
    | .error e => .error e
    | .ok host =>
      if ¬ validUserinfo userinfo then .error .invalidUserinfo
      else
        match cut 58 userinfo with
        | none =>
          match unescape .encodeUserPassword userinfo with
          | .error e => .error e
          | .ok u => .ok (some ⟨u, [], false⟩, host)
        | some (username, password) =>
          match unescape .encodeUserPassword username with
          | .error e => .error e
          | .ok u =>
            match unescape .encodeUserPassword password with
            | .error e => .error e
            | .ok pw => .ok (some ⟨u, pw, true⟩, host)

/-- Go `(*URL).setPath`. -/
def URL.setPath (u : URL) (p : Str) : Except UrlError URL :=
  match unescape .encodePath p with
  | .error e => .error e
  | .ok path =>
    .ok { u with Path := path, RawPath := if p = escape .encodePath path then [] else p }

/-- Go `(*URL).setFragment`. -/
def URL.setFragment (u : URL) (f : Str) : Except UrlError URL :=
  match unescape .encodeFragment f with
  | .error e => .error e
  | .ok frag =>
    .ok { u with Fragment := frag,
                 RawFragment := if f = escape .encodeFragment frag then [] else f }

/-- Go `url.parse(rawURL, false)`: parsing of a URL without fragment. -/
def parseNoFragment (rawURL : Str) : Except UrlError URL :=
  if stringContainsCTLByte rawURL then .error .invalidControlCharacter
  else if rawURL = lit "*" then .ok { Path := lit "*" }
  else
    match getScheme rawURL with
    | .error e => .error e
    | .ok (scheme, rest0) =>
      let scheme := scheme.map toLowerByte
      let forceQuery : Bool := rest0.getLast? = some 63 ∧ rest0.count 63 = 1
      let restQuery : Str × Str :=
        if forceQuery then (rest0.dropLast, [])
        else
          match cut 63 rest0 with
          | some (r, q) => (r, q)
          | none => (rest0, [])
      let rest := restQuery.1
      let url : URL := { Scheme := scheme, ForceQuery := forceQuery, RawQuery := restQuery.2 }
      if ¬ (lit "/").isPrefixOf rest ∧ scheme ≠ [] then .ok { url with Opaque := rest }
      else if ¬ (lit "/").isPrefixOf rest ∧
          (58 : Byte) ∈ (match cut 47 rest with | some (segment, _) => segment | none => rest) then
        .error .firstPathSegmentColon
      else if (scheme ≠ [] ∨ ¬ (lit "///").isPrefixOf rest) ∧ (lit "//").isPrefixOf rest then
        let afterSlashes := rest.drop 2
        let authRest : Str × Str :=
          match cut 47 afterSlashes with
          | some (a, r) => (a, 47 :: r)
          | none => (afterSlashes, [])
        match parseAuthority authRest.1 with
        | .error e => .error e
        | .ok (user, host) => URL.setPath { url with User := user, Host := host } authRest.2
      else if scheme ≠ [] ∧ (lit "/").isPrefixOf rest then
        URL.setPath { url with OmitHost := true } rest
      else URL.setPath url rest

/-- Go `url.Parse`: cuts off the fragment at the first `#`, parses the rest, then
sets the fragment. -/
def Parse (rawURL : Str) : Except UrlError URL :=
  let uf : Str × Str :=
    match cut 35 rawURL with
    | some (u, frag) => (u, frag)
    | none => (rawURL, [])
  match parseNoFragment uf.1 with
  | .error e => .error e
  | .ok url => if uf.2 = [] then .ok url else url.setFragment uf.2

/-- Go `(*URL).Query`: the values of `ParseQuery(u.RawQuery)`, the error dropped. -/
def URL.Query (u : URL) : Values := (ParseQuery u.RawQuery).1

/-- Go `url.validEncoded`. -/
def validEncoded (s : Str) (mode : Encoding) : Bool :=
  s.all fun c =>
    decide (c.val ∈ [33, 36, 38, 39, 40, 41, 42, 43, 44, 59, 61, 58, 64, 91, 93, 37]) ||
      !shouldEscape c mode

/-- Go `(*URL).EscapedPath`. -/
def URL.EscapedPath (u : URL) : Str :=
  if u.RawPath ≠ [] ∧ validEncoded u.RawPath .encodePath ∧
      unescape .encodePath u.RawPath = .ok u.Path then u.RawPath
  else if u.Path = lit "*" then lit "*"
  else escape .encodePath u.Path

/-- Go `(*URL).EscapedFragment`. -/
def URL.EscapedFragment (u : URL) : Str :=
  if u.RawFragment ≠ [] ∧ validEncoded u.RawFragment .encodeFragment ∧
      unescape .encodeFragment u.RawFragment = .ok u.Fragment then u.RawFragment
  else escape .encodeFragment u.Fragment

/-- Go `(*Userinfo).String`. -/
def Userinfo.String (ui : Userinfo) : Str :=
  escape .encodeUserPassword ui.username ++
    (if ui.passwordSet then 58 :: escape .encodeUserPassword ui.password else [])

/-- What `(*URL).String` writes before the query: scheme, opaque part or
authority and path. -/
def URL.beforeQuery (u : URL) : Str :=
  let buf : Str := if u.Scheme ≠ [] then u.Scheme ++ [58] else []
  if u.Opaque ≠ [] then buf ++ u.Opaque
  else
    let buf : Str :=
      if u.Scheme ≠ [] ∨ u.Host ≠ [] ∨ u.User ≠ none then
        if u.OmitHost ∧ u.Host = [] ∧ u.User = none then buf
        else
          buf ++ (if u.Host ≠ [] ∨ u.Path ≠ [] ∨ u.User ≠ none then lit "//" else []) ++
            (match u.User with
              | some ui => ui.String ++ [64]
              | none => []) ++
            (if u.Host ≠ [] then escape .encodeHost u.Host else [])
      else buf
    let path := u.EscapedPath
    let buf : Str :=
      if path ≠ [] ∧ path.head? ≠ some 47 ∧ u.Host ≠ [] then buf ++ [47] else buf
    let buf : Str :=
      if buf = [] ∧
          (58 : Byte) ∈ (match cut 47 path with | some (segment, _) => segment | none => path) then
        buf ++ lit "./"
      else buf
    buf ++ path

/-- What `(*URL).String` writes for the query: `?` and `RawQuery`, when the
query is forced or not empty. -/
def URL.querySuffix (u : URL) : Str :=
  if u.ForceQuery ∨ u.RawQuery ≠ [] then 63 :: u.RawQuery else []

/-- What `(*URL).String` writes for the fragment. -/
def URL.fragmentSuffix (u : URL) : Str :=
  if u.Fragment ≠ [] then 35 :: u.EscapedFragment else []

/-- Go `(*URL).String`. -/
def URL.String (u : URL) : Str := u.beforeQuery ++ u.querySuffix ++ u.fragmentSuffix

/-! ## The request builder -/

/-- The go-getter `Mode` (`ModeInvalid` is the zero value). -/
inductive Mode where
  | ModeInvalid
  | ModeAny
  | ModeFile
  | ModeDir
  deriving DecidableEq

/-- The fields of the go-getter `Request` that the provider sets. -/
structure Request where
  Src : Str := []
  Dst : Str := []
  Pwd : Str := []
  GetMode : Mode := .ModeInvalid
  deriving DecidableEq

/-- A `configProvider` (a `ResourceData` or a `ResourceDiff`), as the values its
`Get` and `GetOk` return for the attributes of a `get_artifact` resource.  A
string attribute read with `Get` is the empty string when unset; an attribute
read with `GetOk` is kept as an `Option`, `none` when it was never set. -/
structure configProvider where
  url : Str := []
  dest : Str := []
  mode : Str := []
  archive : Option Str := none
  checksum : Option Str := none
  insecure : Bool := false
  workdir : Option Str := none
  required : Bool := false
  sum : Option Str := none
  sum64 : Option Str := none
  deriving DecidableEq

/-- The method `GetOk` on a string attribute: the value (the zero value when
unset) and whether it has been set to a non-zero value. -/
def GetOk (attr : Option Str) : Str × Bool :=
  match attr with
  | none => ([], false)
  | some value => (value, decide (value ≠ []))

/-- The errors of `resourceArtifactRequest`. -/
inductive RequestError where
  | invalidMode (mode : Str)
  | parsingUrl (err : UrlError)
  deriving DecidableEq

/-- Lines 205-215 of `resourceArtifactRequest`: the query values of the parsed
url with `archive`, `checksum` and `insecure` set from the configuration. -/
def requestParams (d : configProvider) (src : URL) : Values :=
  let params := src.Query
  let params := if (GetOk d.archive).2 then params.Set (lit "archive") (GetOk d.archive).1 else params
  let params :=
    if (GetOk d.checksum).2 then params.Set (lit "checksum") (GetOk d.checksum).1 else params
  if d.insecure then params.Set (lit "insecure") (lit "true") else params

/-- Lines 205-216 of `resourceArtifactRequest`: the parsed url with its
`RawQuery` replaced by the encoded parameters. -/
def requestURL (d : configProvider) (src : URL) : URL :=
  { src with RawQuery := (requestParams d src).Encode }

/-- The function `resourceArtifactRequest`: generates a go-getter request from the
attributes. -/
def resourceArtifactRequest (d : configProvider) : Except RequestError Request :=
  let req : Request := { Dst := d.dest }
  let mode : Option Mode :=
    if d.mode = lit "any" then some .ModeAny
    else if d.mode = lit "dir" then some .ModeDir
    else if d.mode = lit "file" then some .ModeFile
    else none
  match mode with
  | none => .error (.invalidMode d.mode)
  | some getMode =>
    let req := { req with GetMode := getMode }
    match Parse d.url with
    | .error err => .error (.parsingUrl err)
    | .ok src =>
      let req := { req with Src := (requestURL d src).String }
      let req := if (GetOk d.workdir).2 then { req with Pwd := (GetOk d.workdir).1 } else req
      .ok req

/-! ## Filesystem and fetch engine -/

/-- What a directory entry names. -/
inductive Node where
  | file (content : List Byte)
  | dir
  | symlink (target : Str)
  deriving DecidableEq

/-- The location of a directory entry: the names from the root directory down
to the entry; `[]` is the root directory. -/
abbrev Loc := List Str

/-- A filesystem state: the directory entries by location (the first entry of
a location counts) and the working directory of the process.  Several paths
name one entry (`a/./b`, `a//b`, a path through a symbolic link); permissions
are not part of the state. -/
structure FS where
  entries : List (Loc × Node) := []
  cwd : Loc := []
  deriving DecidableEq

/-- What is at a location; the root directory always exists. -/
def FS.node (fs : FS) (loc : Loc) : Option Node :=
  if loc = [] then some .dir else fs.entries.lookup loc

/-- The state without the entry at `loc`. -/
def FS.erase (fs : FS) (loc : Loc) : FS :=
  { fs with entries := fs.entries.filter fun e => e.1 ≠ loc }

/-- Path resolution over the components `comps` from the directory `cur`, each
symbolic link on the way being followed; `sub` resolves the target of a link.
A component, also an empty one or `.`, is only looked up in a directory. -/
def FS.walkWith (fs : FS) (sub : Loc → List Str → Option Loc) : Loc → List Str → Option Loc
  | cur, [] => some cur
  | cur, name :: rest =>
    if fs.node cur ≠ some .dir then none
    else if name = [] ∨ name = lit "." then fs.walkWith sub cur rest
    else if name = lit ".." then fs.walkWith sub cur.dropLast rest
    else
      match fs.node (cur ++ [name]) with
      | none => none
      | some (.symlink target) =>
        if target = [] then none
        else
          match sub (if (lit "/").isPrefixOf target then [] else cur) (splitOn 47 target) with
          | none => none
          | some loc => fs.walkWith sub loc rest
      | some _ => fs.walkWith sub (cur ++ [name]) rest

/-- Path resolution with at most `depth` nested symbolic links (deeper nesting
fails, as with `ELOOP`). -/
def FS.walk (fs : FS) : Nat → Loc → List Str → Option Loc
  | 0 => fs.walkWith fun _ _ => none
  | depth + 1 => fs.walkWith (fs.walk depth)

/-- The nesting of symbolic links the kernel accepts. -/
def maxSymlinks : Nat := 40

/-- The directory in which the resolution of the path `name` starts: the root
for an absolute path, the working directory otherwise. -/
def FS.start (fs : FS) (name : Str) : Loc := if (lit "/").isPrefixOf name then [] else fs.cwd

/-- The location the path `name` resolves to, all symbolic links followed. -/
def FS.resolve (fs : FS) (name : Str) : Option Loc :=
  if name = [] then none else fs.walk maxSymlinks (fs.start name) (splitOn 47 name)

/-- Go `os.Stat(name)`: the node the path resolves to (`err == nil`), else
`none`. -/
def FS.stat (fs : FS) (name : Str) : Option Node :=
  match fs.resolve name with
  | none => none
  | some loc => fs.node loc

/-- The errors of `os.Remove`. -/
inductive RemoveError where
  | notExist
  | notEmpty
  | notDir
  | invalid
  | busy
  deriving DecidableEq

/-- The directory entry that the system calls `unlink` and `rmdir` act on for
the path `name`: the path up to its last name is resolved, a symbolic link in
the last name is not followed.  A last name `.` or `..` and the root directory
are refused. -/
def FS.entry (fs : FS) (name : Str) : Except RemoveError Loc :=
  match (splitOn 47 name).reverse.dropWhile fun c => c = [] with
  | [] => .error (if name = [] then .notExist else .busy)
  | last :: parents =>
    match fs.walk maxSymlinks (fs.start name) parents.reverse with
    | none => .error .notExist
    | some parent =>
      if fs.node parent ≠ some .dir then .error .notDir
      else if last = lit "." then .error .invalid
      else if last = lit ".." then .error .notEmpty
      else .ok (parent ++ [last])

/-- Go `os.Remove(name)`: `unlink`, then `rmdir`: removes the entry of a file or
of a symbolic link (the path not ending in a slash) or of a directory without
entries; nothing is removed otherwise. -/
def FS.remove (fs : FS) (name : Str) : Except RemoveError FS :=
  match fs.entry name with
  | .error err => .error err
  | .ok loc =>
    match fs.node loc with
    | none => .error .notExist
    | some .dir =>
      if fs.entries.any (fun e => e.1 ≠ [] ∧ e.1.dropLast = loc) then .error .notEmpty
      else .ok (fs.erase loc)
    | some _ => if name.getLast? = some 47 then .error .notDir else .ok (fs.erase loc)

/-- The go-getter client, the fetch engine: `Get` acts on the filesystem and
may fail; `GetChecksum` may fail, or return a checksum or nil. -/
structure Client where
  Get : Request → FS → FS × Option Str
  GetChecksum : Request → FS → FS × Except Str (Option FileChecksum)

/-- A call of the fetch engine. -/
inductive Call where
  | Get (req : Request)
  | GetChecksum (req : Request)
  deriving DecidableEq

/-- A non-empty `diag.Diagnostics`, or a Go `error`, by origin. -/
inductive Diag where
  | fromRequest (err : RequestError)
  | gettingUrl (err : Str)
  | gettingChecksum (err : Str)
  | fromRemove (err : RemoveError)
  deriving DecidableEq

/-- A `schema.ResourceData`: the attributes and the identifier. -/
structure ResourceData where
  attrs : configProvider := {}
  id : Str := []
  deriving DecidableEq

/-- The outcome of a lifecycle handler on a `ResourceData`: the resource data
and the filesystem after the call, the engine calls made in order, and the
diagnostics returned (`none` for nil). -/
structure Outcome where
  d : ResourceData
  fs : FS
  calls : List Call := []
  diags : Option Diag := none

/-- A `schema.ResourceDiff`: the attributes as its `Get` and `GetOk` return
them (`sum` being the stored one) and the keys that have a change in the
planned diff (those for which `HasChange` holds). -/
structure ResourceDiff where
  attrs : configProvider := {}
  changed : List Str := []
  deriving DecidableEq

/-- The error of `(*ResourceDiff).ForceNew`. -/
inductive ForceNewError where
  | noChanges (key : Str)
  deriving DecidableEq

/-- Go `(*ResourceDiff).ForceNew(key)` for a key of the schema: when the key has
no change it returns the error `ForceNew: No changes for key` and flags
nothing; otherwise it flags the key as forcing a new resource and returns nil
(`none`). -/
def ResourceDiff.ForceNew (d : ResourceDiff) (key : Str) : Option ForceNewError :=
  if key ∈ d.changed then none else some (.noChanges key)

/-- The outcome of `resourceArtifactCustomizeDiff`: the filesystem after the
call, the engine calls made, the keys passed to `d.ForceNew` in order, the
keys that are flagged for forced replacement (those for which `ForceNew`
returned nil), and the error returned. -/
structure DiffOutcome where
  fs : FS
  calls : List Call := []
  forceNewCalls : List Str := []
  forced : List Str := []
  err : Option Diag := none

/-! ## Lifecycle handlers -/

/-- The expression `sha256.New().Sum(b)`: `hash.Hash.Sum` appends the current
hash to `b`; nothing has been written to the new hash, so what is appended is
the SHA-256 digest of the empty input. -/
def sha256NewSum (b : List Byte) : List Byte :=
  b ++ [0xe3, 0xb0, 0xc4, 0x42, 0x98, 0xfc, 0x1c, 0x14, 0x9a, 0xfb, 0xf4, 0xc8, 0x99, 0x6f, 0xb9,
    0x24, 0x27, 0xae, 0x41, 0xe4, 0x64, 0x9b, 0x93, 0x4c, 0xa4, 0x95, 0x99, 0x1b, 0x78, 0x52,
    0xb8, 0x55]

/-- The identifier `resourceArtifactCreate` sets when the engine returns no
checksum (line 119). -/
def fallbackId (req : Request) : Str := base64RawStdEncodeToString (sha256NewSum req.Src)

/-- The handler `resourceArtifactRead`: returns nil and changes nothing. -/
def resourceArtifactRead (d : ResourceData) (fs : FS) (calls : List Call) : Outcome :=
  { d := d, fs := fs, calls := calls, diags := none }

/-- The handler `resourceArtifactCreate`. -/
def resourceArtifactCreate (client : Client) (d : ResourceData) (fs : FS) : Outcome :=
  match resourceArtifactRequest d.attrs with
  | .error err => { d := d, fs := fs, diags := some (.fromRequest err) }
  | .ok req =>
    match client.Get req fs with
    | (fs1, some err) => { d := d, fs := fs1, calls := [.Get req], diags := some (.gettingUrl err) }
    | (fs1, none) =>
      match resourceArtifactRequest d.attrs with
      | .error err => { d := d, fs := fs1, calls := [.Get req], diags := some (.fromRequest err) }
      | .ok req2 =>
        match client.GetChecksum req2 fs1 with
        | (fs2, .error err) =>
          { d := d, fs := fs2, calls := [.Get req, .GetChecksum req2],
            diags := some (.gettingChecksum err) }
        | (fs2, .ok checksum) =>
          let r := resourceArtifactSum checksum
          let d2 : ResourceData :=
            if r.2.2 then { attrs := { d.attrs with sum := some r.1, sum64 := some r.2.1 }, id := r.1 }
            else { d with id := fallbackId req2 }
          resourceArtifactRead d2 fs2 [.Get req, .GetChecksum req2]

/-- The handler `resourceArtifactUpdate`. -/
def resourceArtifactUpdate (client : Client) (d : ResourceData) (fs : FS) : Outcome :=
  if d.attrs.required ∧ fs.stat d.attrs.dest = none then resourceArtifactCreate client d fs
  else { d := d, fs := fs }

/-- The handler `resourceArtifactDelete`. -/
def resourceArtifactDelete (d : ResourceData) (fs : FS) : Outcome :=
  let dest := d.attrs.dest
  match fs.stat dest with
  | some _ =>
    match fs.remove dest with
    | .error err => { d := d, fs := fs, diags := some (.fromRemove err) }
    | .ok fs2 => { d := d, fs := fs2 }
  | none => { d := d, fs := fs }

/-- The statements `d.ForceNew(key)` for the keys `keys` in order, the returned
errors being dropped as in lines 154 and 171-172: the keys that end up
flagged. -/
def forceNewDropErr (d : ResourceDiff) (keys : List Str) : List Str :=
  keys.filter fun key => d.ForceNew key = none

/-- The handler `resourceArtifactCustomizeDiff`. -/
def resourceArtifactCustomizeDiff (client : Client) (d : ResourceDiff) (fs : FS) :
    DiffOutcome :=
  if d.attrs.required ∧ fs.stat d.attrs.dest = none then
    { fs := fs, forceNewCalls := [lit "required"], forced := forceNewDropErr d [lit "required"] }
  else
    match resourceArtifactRequest d.attrs with
    | .error err => { fs := fs, err := some (.fromRequest err) }
    | .ok req =>
      match client.GetChecksum req fs with
      | (fs1, .error err) =>
        { fs := fs1, calls := [.GetChecksum req], err := some (.gettingChecksum err) }
      | (fs1, .ok checksum) =>
        let prev := GetOk d.attrs.sum
        let r := resourceArtifactSum checksum
        if r.2.2 ∧ (¬ prev.2 ∨ prev.1 ≠ r.1) then
          { fs := fs1, calls := [.GetChecksum req], forceNewCalls := [lit "sum", lit "sum64"],
            forced := forceNewDropErr d [lit "sum", lit "sum64"] }
        else { fs := fs1, calls := [.GetChecksum req] }

/-! ## Definitions used to state the properties -/

/-- The text `Values.Encode` writes for one pair: `key=value`, both escaped. -/
def encodePair (kv : Str × Str) : Str := QueryEscape kv.1 ++ 61 :: QueryEscape kv.2

/-- The pairs of the map in the order in which `Values.Encode` writes them. -/
def Values.pairs (v : Values) : List (Str × Str) :=
  (v.keys.insertionSort (· ≤ ·)).flatMap fun k => (v.get k).map fun value => (k, value)

/-- The parameters of a query string as written: its segments between `&`
that are not empty. -/
def querySegments (query : Str) : List Str := (splitOn 38 query).filter fun seg => seg ≠ []

/-- The key of a segment as written: the text before its first `=`. -/
def segmentKey (seg : Str) : Str :=
  match cut 61 seg with
  | some (key, _) => key
  | none => seg

/-- The segment `seg` is kept in the query string `query`: it is one of its
segments as written, or the pair it decodes to is one of the pairs of
`query`. -/
def segmentKept (seg query : Str) : Bool :=
  decide (seg ∈ querySegments query) ||
    match parsePair seg with
    | .ok (some kv) => decide (kv ∈ queryPairs query)
    | _ => false

/-- The values a query string carries for `key`, in order; this is
`ParseQuery(query)[key]`. -/
def queryValues (query : Str) (key : Str) : List Str :=
  ((queryPairs query).filter fun kv => kv.1 = key).map Prod.snd

/-! ## Inputs of the repository's tests -/

/-- Second case of `TestResourceArtifactRequest`: the url already carries a
`checksum` parameter. -/
def testCaseChecksum : configProvider :=
  { url := lit "foo/bar.zip?checksum=file:123", dest := lit "/tmp", mode := lit "any",
    checksum := some (lit "md5:123") }

/-- What `url.Parse` returns for the url of `testCaseChecksum`. -/
def testCaseChecksumURL : URL := { Path := lit "foo/bar.zip", RawQuery := lit "checksum=file:123" }

/-- Third case of `TestResourceArtifactRequest`: a `file` url with a query of
its own, `archive` and `insecure`. -/
def testCaseArchive : configProvider :=
  { url := lit "file:///tmp/foo.zip?bar=qux", dest := lit "/tmp", mode := lit "any",
    archive := some (lit "false"), insecure := true }

/-- What `url.Parse` returns for the url of `testCaseArchive`. -/
def testCaseArchiveURL : URL :=
  { Scheme := lit "file", Path := lit "/tmp/foo.zip", RawQuery := lit "bar=qux" }

/-- The checksum of `testLocalFile` for the content `abc`: SHA-256 of `abc`. -/
def testChecksumAbc : FileChecksum :=
  { Typ := lit "sha256",
    Value := [0xba, 0x78, 0x16, 0xbf, 0x8f, 0x01, 0xcf, 0xea, 0x41, 0x41, 0x40, 0xde, 0x5d, 0xae,
      0x22, 0x23, 0xb0, 0x03, 0x61, 0xa3, 0x96, 0x17, 0x7a, 0x9c, 0xb4, 0x10, 0xff, 0x61, 0xf2,
      0x00, 0x15, 0xad] }

/-- A fetch engine whose `Get` succeeds without touching the filesystem and
whose `GetChecksum` returns `checksum`. -/
def constClient (checksum : Option FileChecksum) : Client :=
  { Get := fun _ fs => (fs, none), GetChecksum := fun _ fs => (fs, .ok checksum) }

/-- A plan in which nothing of the configuration changed and the stored `sum`
is the checksum of older content. -/
def staleSumDiff : ResourceDiff :=
  { attrs := { testCaseChecksum with sum := some (lit "sha256:00") }, changed := [] }

/-- A filesystem with the directories `/tmp` and `/tmp/d5`, the files
`/tmp/d5/dest.txt` and `/tmp/d5/source.txt`, and the symbolic link
`/tmp/latest` to `d5/dest.txt`. -/
def testFS : FS :=
  { entries :=
      [([lit "tmp"], .dir), ([lit "tmp", lit "d5"], .dir),
        ([lit "tmp", lit "d5", lit "dest.txt"], .file (lit "abc")),
        ([lit "tmp", lit "d5", lit "source.txt"], .file (lit "abc")),
        ([lit "tmp", lit "latest"], .symlink (lit "d5/dest.txt"))],
    cwd := [lit "tmp"] }

/-! # Theorems -/


/-! ## Lemmas: bytes, hex and base64 -/

theorem fromHexChar_hexDigit_fin : ∀ n : Fin 16, fromHexChar (hexDigit n.val) = some n.val := by
  decide

theorem fromHexChar_hexDigit (n : Nat) (h : n < 16) : fromHexChar (hexDigit n) = some n :=
  fromHexChar_hexDigit_fin ⟨n, h⟩

theorem byte_of_nibbles (b : Byte) : (Fin.ofNat (b.val / 16 * 16 + b.val % 16) : Byte) = b := by
  apply Fin.ext
  have := b.isLt
  simp only [Fin.ofNat, Nat.div_add_mod']
  omega

theorem hexDecodeString_hexEncodeToString (bs : List Byte) :
    hexDecodeString (hexEncodeToString bs) = .ok bs := by
  induction bs with
  | nil => rfl
  | cons b bs ih =>
    have h1 : b.val / 16 < 16 := by have := b.isLt; omega
    have h2 : b.val % 16 < 16 := Nat.mod_lt _ (by decide)
    simp only [hexEncodeToString, hexDecodeString, fromHexChar_hexDigit _ h1,
      fromHexChar_hexDigit _ h2, ih, byte_of_nibbles]

theorem hexDecodeString_error_of_bad (s : Str)
    (h : s.length % 2 = 1 ∨ ∃ c ∈ s, fromHexChar c = none) :
    ∃ e, hexDecodeString s = .error e := by
  induction s using hexDecodeString.induct with
  | case1 => simp at h
  | case2 p hp => exact ⟨.invalidByte p, by simp [hexDecodeString, hp]⟩
  | case3 p x hp => exact ⟨.errLength, by simp [hexDecodeString, hp]⟩
  | case4 p q rest hp => exact ⟨.invalidByte p, by simp [hexDecodeString, hp]⟩
  | case5 p q rest a ha hq => exact ⟨.invalidByte q, by simp [hexDecodeString, ha, hq]⟩
  | case6 p q rest a ha b hb e he ih => exact ⟨e, by simp [hexDecodeString, ha, hb, he]⟩
  | case7 p q rest a ha b hb out hout ih =>
    have : rest.length % 2 = 1 ∨ ∃ c ∈ rest, fromHexChar c = none := by
      rcases h with h | ⟨c, hc, hcn⟩
      · left
        simp only [List.length_cons] at h
        omega
      · right
        simp only [List.mem_cons] at hc
        rcases hc with rfl | rfl | hc
        · simp [ha] at hcn
        · simp [hb] at hcn
        · exact ⟨c, hc, hcn⟩
    obtain ⟨e, he⟩ := ih this
    simp [hout] at he

theorem base64Val_base64Char_fin :
    ∀ n : Fin 64, base64Val (base64Char n.val) = some n.val ∧ base64Char n.val ≠ 61 := by
  decide

theorem base64Val_base64Char (n : Nat) (h : n < 64) : base64Val (base64Char n) = some n :=
  (base64Val_base64Char_fin ⟨n, h⟩).1

theorem base64Char_ne_pad (n : Nat) (h : n < 64) : base64Char n ≠ 61 :=
  (base64Val_base64Char_fin ⟨n, h⟩).2

theorem base64Char_injective (n m : Nat) (hn : n < 64) (hm : m < 64)
    (h : base64Char n = base64Char m) : n = m := by
  have h1 := base64Val_base64Char n hn
  rw [h, base64Val_base64Char m hm] at h1
  exact (Option.some.inj h1).symm

theorem base64StdDecodeString_encode (bs : List Byte) :
    base64StdDecodeString (base64StdEncodeToString bs) = some bs := by
  unfold base64StdEncodeToString
  induction bs using base64Encode.induct true with
  | case1 => rfl
  | case2 a =>
    have ha := a.isLt
    have h0 : a.val / 4 < 64 := by omega
    have h1 : a.val % 4 * 16 < 64 := by omega
    simp only [base64Encode, base64StdDecodeString, base64Val_base64Char _ h0,
      base64Val_base64Char _ h1, if_true, List.cons_append, List.nil_append, and_self]
    congr 2
    apply Fin.ext
    simp only [Fin.ofNat]
    omega
  | case3 a b =>
    have ha := a.isLt
    have hb := b.isLt
    have h0 : a.val / 4 < 64 := by omega
    have h1 : a.val % 4 * 16 + b.val / 16 < 64 := by omega
    have h2 : b.val % 16 * 4 < 64 := by omega
    simp only [base64Encode, base64StdDecodeString, base64Val_base64Char _ h0,
      base64Val_base64Char _ h1, base64Val_base64Char _ h2, base64Char_ne_pad _ h2, if_true,
      if_false, List.cons_append, List.nil_append, and_self]
    congr 2
    · apply Fin.ext
      simp only [Fin.ofNat]
      omega
    · congr 1
      apply Fin.ext
      simp only [Fin.ofNat]
      omega
  | case4 a b c rest ih =>
    have ha := a.isLt
    have hb := b.isLt
    have hc := c.isLt
    have h0 : a.val / 4 < 64 := by omega
    have h1 : a.val % 4 * 16 + b.val / 16 < 64 := by omega
    have h2 : b.val % 16 * 4 + c.val / 64 < 64 := by omega
    have h3 : c.val % 64 < 64 := by omega
    simp only [base64Encode, base64StdDecodeString, base64Val_base64Char _ h0,
      base64Val_base64Char _ h1, base64Val_base64Char _ h2, base64Val_base64Char _ h3,
      base64Char_ne_pad _ h3, false_and, if_false, ih]
    congr 2
    · apply Fin.ext
      simp only [Fin.ofNat]
      omega
    · congr 1
      · apply Fin.ext
        simp only [Fin.ofNat]
        omega
      · congr 1
        apply Fin.ext
        simp only [Fin.ofNat]
        omega


theorem base64Encode_raw_injective (l1 l2 : List Byte)
    (h : base64Encode false l1 = base64Encode false l2) : l1 = l2 := by
  induction l1 using base64Encode.induct false generalizing l2 with
  | case1 =>
    rcases l2 with _ | ⟨x, _ | ⟨y, _ | ⟨z, t⟩⟩⟩ <;> simp [base64Encode] at h ⊢
  | case2 a =>
    rcases l2 with _ | ⟨x, _ | ⟨y, _ | ⟨z, t⟩⟩⟩ <;> simp [base64Encode] at h ⊢
    have ha := a.isLt
    have hx := x.isLt
    have e0 := base64Char_injective _ _ (by omega) (by omega) h.1
    have e1 := base64Char_injective _ _ (by omega) (by omega) h.2
    apply Fin.ext
    omega
  | case3 a b =>
    rcases l2 with _ | ⟨x, _ | ⟨y, _ | ⟨z, t⟩⟩⟩ <;> simp [base64Encode] at h ⊢
    have ha := a.isLt
    have hb := b.isLt
    have hx := x.isLt
    have hy := y.isLt
    have e0 := base64Char_injective _ _ (by omega) (by omega) h.1
    have e1 := base64Char_injective _ _ (by omega) (by omega) h.2.1
    have e2 := base64Char_injective _ _ (by omega) (by omega) h.2.2
    constructor <;> apply Fin.ext <;> omega
  | case4 a b c rest ih =>
    rcases l2 with _ | ⟨x, _ | ⟨y, _ | ⟨z, t⟩⟩⟩ <;> simp [base64Encode] at h ⊢
    have ha := a.isLt
    have hb := b.isLt
    have hc := c.isLt
    have hx := x.isLt
    have hy := y.isLt
    have hz := z.isLt
    have e0 := base64Char_injective _ _ (by omega) (by omega) h.1
    have e1 := base64Char_injective _ _ (by omega) (by omega) h.2.1
    have e2 := base64Char_injective _ _ (by omega) (by omega) h.2.2.1
    have e3 := base64Char_injective _ _ (by omega) (by omega) h.2.2.2.1
    refine ⟨?_, ?_, ?_, ih _ h.2.2.2.2⟩ <;> apply Fin.ext <;> omega

/-! ## Lemmas: `cut` -/

theorem cut_eq_none {sep : Byte} {s : Str} : cut sep s = none ↔ sep ∉ s := by
  induction s with
  | nil => simp [cut]
  | cons c cs ih =>
    by_cases hc : c = sep
    · simp [cut, hc]
    · have hc2 : ¬ sep = c := fun h => hc h.symm
      cases hcut : cut sep cs with
      | none => simp [cut, hc, hc2, hcut, ih.mp hcut]
      | some p =>
        have : sep ∈ cs := by
          by_contra hmem
          rw [ih.mpr hmem] at hcut
          cases hcut
        simp [cut, hc, hcut, this]

theorem cut_append {sep : Byte} {a : Str} (b : Str) (h : sep ∉ a) :
    cut sep (a ++ sep :: b) = some (a, b) := by
  induction a with
  | nil => simp [cut]
  | cons c cs ih =>
    simp only [List.mem_cons, not_or] at h
    have hc : ¬ c = sep := fun e => h.1 e.symm
    simp [cut, hc, ih h.2]

theorem cut_some {sep : Byte} {s a b : Str} (h : cut sep s = some (a, b)) :
    s = a ++ sep :: b ∧ sep ∉ a := by
  induction s generalizing a with
  | nil => simp [cut] at h
  | cons c cs ih =>
    by_cases hc : c = sep
    · simp only [cut, hc, if_true, Option.some.injEq, Prod.mk.injEq] at h
      obtain ⟨rfl, rfl⟩ := h
      simp [hc]
    · cases hcut : cut sep cs with
      | none => simp [cut, hc, hcut] at h
      | some p =>
        obtain ⟨a2, b2⟩ := p
        simp only [cut, hc, if_false, hcut, Option.some.injEq, Prod.mk.injEq] at h
        obtain ⟨rfl, rfl⟩ := h
        obtain ⟨e, hn⟩ := ih hcut
        refine ⟨by rw [e]; rfl, ?_⟩
        simp only [List.mem_cons, not_or]
        exact ⟨fun e => hc e.symm, hn⟩

/-! ## Lemmas: `resourceArtifactSum` -/

theorem resourceArtifactSumOf_no_colon (sum : Str) (h : (58 : Byte) ∉ sum) :
    resourceArtifactSumOf sum = (sum, [], true) := by
  simp [resourceArtifactSumOf, splitN2, cut_eq_none.mpr h]

theorem resourceArtifactSumOf_colon_ok (sum alg hex : Str) (raw : List Byte)
    (h : cut 58 sum = some (alg, hex)) (hd : hexDecodeString hex = .ok raw) :
    resourceArtifactSumOf sum = (sum, base64StdEncodeToString raw, true) := by
  simp [resourceArtifactSumOf, splitN2, h, hd]

theorem resourceArtifactSumOf_colon_error (sum alg hex : Str) (e : HexError)
    (h : cut 58 sum = some (alg, hex)) (hd : hexDecodeString hex = .error e) :
    resourceArtifactSumOf sum = (sum, [], true) := by
  simp [resourceArtifactSumOf, splitN2, h, hd]

theorem resourceArtifactSumOf_fst (sum : Str) : (resourceArtifactSumOf sum).1 = sum := by
  unfold resourceArtifactSumOf
  simp only
  split
  · rfl
  · split <;> rfl

theorem resourceArtifactSumOf_present (sum : Str) : (resourceArtifactSumOf sum).2.2 = true := by
  unfold resourceArtifactSumOf
  simp only
  split
  · rfl
  · split <;> rfl

theorem FileChecksum_String_ne_nil (c : FileChecksum) : c.String ≠ [] := by
  simp [FileChecksum.String]


/-! ## Lemmas: query escaping -/

set_option maxRecDepth 100000 in
theorem query_unescaped_byte : ∀ c : Byte, shouldEscape c .encodeQueryComponent = false →
    c.val ≠ 37 ∧ c.val ≠ 43 ∧ c ≠ 38 ∧ c ≠ 59 ∧ c ≠ 61 := by
  decide

theorem upperhex_fin : ∀ n : Fin 16, unhex (upperhex n.val) = n.val ∧
    ishex (upperhex n.val) = true ∧ upperhex n.val ≠ 38 ∧ upperhex n.val ≠ 59 ∧
    upperhex n.val ≠ 61 := by
  decide

theorem upperhex_spec (n : Nat) (h : n < 16) : unhex (upperhex n) = n ∧
    ishex (upperhex n) = true ∧ upperhex n ≠ 38 ∧ upperhex n ≠ 59 ∧ upperhex n ≠ 61 :=
  upperhex_fin ⟨n, h⟩

theorem QueryEscape_bytes (s : Str) :
    ∀ c ∈ QueryEscape s, c ≠ 38 ∧ c ≠ 59 ∧ c ≠ 61 := by
  unfold QueryEscape
  induction s with
  | nil => simp [escape]
  | cons b bs ih =>
    have h1 : b.val / 16 < 16 := by have := b.isLt; omega
    have h2 : b.val % 16 < 16 := Nat.mod_lt _ (by decide)
    intro c hc
    simp only [escape] at hc
    split at hc
    · split at hc
      · simp only [List.mem_cons] at hc
        rcases hc with rfl | hc
        · decide
        · exact ih c hc
      · simp only [List.mem_cons] at hc
        rcases hc with rfl | rfl | rfl | hc
        · decide
        · exact (upperhex_spec _ h1).2.2
        · exact (upperhex_spec _ h2).2.2
        · exact ih c hc
    · rename_i hb
      simp only [List.mem_cons] at hc
      rcases hc with rfl | hc
      · exact (query_unescaped_byte c (by simpa using hb)).2.2
      · exact ih c hc

theorem unescape_query_percent (c a b : Byte) (rest : Str) (hc : c.val = 37)
    (ha : ishex a = true) (hb : ishex b = true) :
    unescape .encodeQueryComponent (c :: a :: b :: rest) =
      (unescape .encodeQueryComponent rest).map
        fun out => Fin.ofNat (unhex a * 16 + unhex b) :: out := by
  rw [unescape.eq_2]
  simp only [hc, ha, hb, and_self, not_true_eq_false, if_true, if_false, false_and, reduceCtorEq]
  cases unescape .encodeQueryComponent rest <;> rfl

theorem unescape_query_other (c : Byte) (rest : Str) (h : c.val ≠ 37) :
    unescape .encodeQueryComponent (c :: rest) =
      (unescape .encodeQueryComponent rest).map
        fun out => (if c.val = 43 then 32 else c) :: out := by
  rw [unescape.eq_def]
  simp only [h, if_false, reduceCtorEq, false_or, false_and, and_true]
  cases unescape .encodeQueryComponent rest <;> rfl

theorem QueryUnescape_QueryEscape (s : Str) : QueryUnescape (QueryEscape s) = .ok s := by
  unfold QueryUnescape QueryEscape
  induction s with
  | nil => rfl
  | cons b bs ih =>
    have h1 : b.val / 16 < 16 := by have := b.isLt; omega
    have h2 : b.val % 16 < 16 := Nat.mod_lt _ (by decide)
    simp only [escape]
    split
    · split
      · rename_i hsp
        have hb : b = 32 := Fin.ext hsp.1
        subst hb
        rw [unescape_query_other _ _ (by decide), ih]
        rfl
      · have e1 := upperhex_spec _ h1
        have e2 := upperhex_spec _ h2
        rw [unescape_query_percent _ _ _ _ rfl e1.2.1 e2.2.1, ih, e1.1, e2.1, byte_of_nibbles]
        rfl
    · rename_i hb
      have hq := query_unescaped_byte b (by simpa using hb)
      rw [unescape_query_other _ _ hq.1, ih, if_neg hq.2.1]
      rfl

/-! ## Lemmas: splitting and joining -/

theorem splitOn_ne_nil (sep : Byte) (s : Str) : splitOn sep s ≠ [] := by
  induction s with
  | nil => simp [splitOn]
  | cons c cs ih =>
    simp only [splitOn]
    split
    · simp
    · split <;> simp

theorem splitOn_of_not_mem {sep : Byte} {s : Str} (h : sep ∉ s) : splitOn sep s = [s] := by
  induction s with
  | nil => rfl
  | cons c cs ih =>
    simp only [List.mem_cons, not_or] at h
    have hc : ¬ c = sep := fun e => h.1 e.symm
    simp [splitOn, hc, ih h.2]

theorem splitOn_append {sep : Byte} {a : Str} (b : Str) (h : sep ∉ a) :
    splitOn sep (a ++ sep :: b) = a :: splitOn sep b := by
  induction a with
  | nil => simp [splitOn]
  | cons c cs ih =>
    simp only [List.mem_cons, not_or] at h
    have hc : ¬ c = sep := fun e => h.1 e.symm
    simp [splitOn, hc, ih h.2]

theorem splitOn_intercalate (sep : Byte) (segs : List Str) (hne : segs ≠ [])
    (h : ∀ seg ∈ segs, sep ∉ seg) : splitOn sep ([sep].intercalate segs) = segs := by
  induction segs with
  | nil => exact absurd rfl hne
  | cons x xs ih =>
    cases xs with
    | nil =>
      simpa [List.intercalate] using splitOn_of_not_mem (h x (List.mem_cons_self _ _))
    | cons y ys =>
      have hx := h x (List.mem_cons_self _ _)
      have ih2 := ih (by simp) (fun seg hs => h seg (List.mem_cons_of_mem _ hs))
      have e : [sep].intercalate (x :: y :: ys) = x ++ sep :: [sep].intercalate (y :: ys) := by
        simp [List.intercalate]
      rw [e, splitOn_append _ hx, ih2]


/-! ## Lemmas: `Values` -/

theorem Values.Encode_eq (v : Values) : v.Encode = [38].intercalate (v.pairs.map encodePair) := by
  simp [Values.Encode, Values.pairs, List.map_flatMap, encodePair, Function.comp_def]

theorem encodePair_bytes (kv : Str × Str) : (38 : Byte) ∉ encodePair kv ∧ (59 : Byte) ∉ encodePair kv := by
  have hk := QueryEscape_bytes kv.1
  have hv := QueryEscape_bytes kv.2
  constructor
  · intro h
    simp only [encodePair, List.mem_append, List.mem_cons] at h
    rcases h with h | h | h
    · exact (hk _ h).1 rfl
    · exact absurd h (by decide)
    · exact (hv _ h).1 rfl
  · intro h
    simp only [encodePair, List.mem_append, List.mem_cons] at h
    rcases h with h | h | h
    · exact (hk _ h).2.1 rfl
    · exact absurd h (by decide)
    · exact (hv _ h).2.1 rfl

theorem parsePair_encodePair (kv : Str × Str) : parsePair (encodePair kv) = .ok (some kv) := by
  have h59 := (encodePair_bytes kv).2
  have hne : encodePair kv ≠ [] := by simp [encodePair]
  have hcut : cut 61 (encodePair kv) = some (QueryEscape kv.1, QueryEscape kv.2) :=
    cut_append _ (fun h => (QueryEscape_bytes kv.1 _ h).2.2 rfl)
  simp [parsePair, h59, hne, hcut, QueryUnescape_QueryEscape]

theorem queryPairs_encode (ps : List (Str × Str)) :
    queryPairs ([38].intercalate (ps.map encodePair)) = ps := by
  by_cases hps : ps = []
  · subst hps
    simp [queryPairs, List.intercalate, splitOn, parsePair]
  · have hsplit := splitOn_intercalate 38 (ps.map encodePair) (by simpa using hps)
      (by
        intro seg hseg
        obtain ⟨kv, _, rfl⟩ := List.mem_map.mp hseg
        exact (encodePair_bytes kv).1)
    rw [queryPairs, hsplit, List.filterMap_map]
    conv_rhs => rw [← List.filterMap_some ps]
    congr 1
    funext kv
    simp [parsePair_encodePair]

theorem queryPairs_Encode (v : Values) : queryPairs v.Encode = v.pairs := by
  rw [Values.Encode_eq, queryPairs_encode]

theorem lookup_filter_ne (v : Values) (k key : Str) (h : k ≠ key) :
    (v.filter fun e => e.1 ≠ key).lookup k = v.lookup k := by
  induction v with
  | nil => rfl
  | cons e es ih =>
    obtain ⟨a, vs⟩ := e
    by_cases ha : a = key
    · subst ha
      have hka : (k == a) = false := by simpa using h
      rw [List.filter_cons_of_neg (by simp), ih, List.lookup_cons, hka]
    · rw [List.filter_cons_of_pos (by simpa using ha), List.lookup_cons, List.lookup_cons, ih]

theorem Values.get_put (v : Values) (key k : Str) (vs : List Str) :
    (v.put key vs).get k = if k = key then vs else v.get k := by
  by_cases h : k = key
  · subst h
    simp [Values.get, Values.put, List.lookup]
  · have hb : (k == key) = false := by simpa using h
    rw [if_neg h, Values.get, Values.put, List.lookup_cons, hb, lookup_filter_ne v k key h]
    rfl

theorem Values.get_Set (v : Values) (key value k : Str) :
    (v.Set key value).get k = if k = key then [value] else v.get k :=
  Values.get_put v key k [value]

theorem Values.get_foldl_Add (l : List (Str × Str)) (m : Values) (k : Str) :
    (l.foldl (fun m kv => m.Add kv.1 kv.2) m).get k =
      m.get k ++ ((l.filter fun kv => kv.1 = k).map Prod.snd) := by
  induction l generalizing m with
  | nil => simp
  | cons kv l ih =>
    rw [List.foldl_cons, ih, Values.Add, Values.get_put]
    by_cases h : k = kv.1
    · subst h
      simp [List.filter]
    · have h2 : ¬ kv.1 = k := fun e => h e.symm
      simp [List.filter, h, h2]

theorem Values.keys_nodup (v : Values) : (v.keys.insertionSort (· ≤ ·)).Nodup :=
  (List.perm_insertionSort _ _).nodup_iff.mpr (List.nodup_dedup _)

theorem Values.mem_sorted_keys (v : Values) (k : Str) :
    k ∈ v.keys.insertionSort (· ≤ ·) ↔ k ∈ v.map Prod.fst := by
  rw [List.mem_insertionSort, Values.keys, List.mem_dedup]

theorem Values.get_of_not_mem (v : Values) (k : Str) (h : k ∉ v.map Prod.fst) : v.get k = [] := by
  have : v.lookup k = none := by
    rw [List.lookup_eq_none_iff]
    intro p hp
    have hne : k ≠ p.1 := by
      intro hk
      apply h
      rw [List.mem_map]
      exact ⟨p, hp, hk.symm⟩
    simpa using hne
  simp [Values.get, this]

theorem filter_flatMap_key (keys : List Str) (f : Str → List Str) (k : Str) (hnd : keys.Nodup) :
    ((keys.flatMap fun k2 => (f k2).map fun value => (k2, value)).filter fun kv => kv.1 = k) =
      if k ∈ keys then (f k).map fun value => (k, value) else [] := by
  induction keys with
  | nil => simp
  | cons a as ih =>
    rw [List.nodup_cons] at hnd
    rw [List.flatMap_cons, List.filter_append, ih hnd.2]
    by_cases ha : a = k
    · subst ha
      simp [hnd.1, List.filter_map, Function.comp_def]
    · have hk : ¬ k = a := fun e => ha e.symm
      simp [ha, hk, List.filter_map, Function.comp_def]

theorem Values.filter_pairs (v : Values) (k : Str) :
    (v.pairs.filter fun kv => kv.1 = k) = (v.get k).map fun value => (k, value) := by
  rw [Values.pairs, filter_flatMap_key _ _ _ (Values.keys_nodup v)]
  split
  · rfl
  · rename_i h
    rw [Values.mem_sorted_keys] at h
    simp [Values.get_of_not_mem v k h]

theorem queryValues_Encode (v : Values) (k : Str) : queryValues v.Encode k = v.get k := by
  simp [queryValues, queryPairs_Encode, Values.filter_pairs, Function.comp_def]

theorem ParseQuery_Encode (v : Values) (k : Str) : (ParseQuery v.Encode).1.get k = v.get k := by
  simp only [ParseQuery, Values.get_foldl_Add, queryPairs_Encode, Values.filter_pairs]
  simp [Values.get, Function.comp_def]

theorem Values.pairs_sorted (v : Values) : (v.pairs.map Prod.fst).Sorted (· ≤ ·) := by
  have hs : (v.keys.insertionSort (· ≤ ·)).Sorted (· ≤ ·) := List.sorted_insertionSort _ _
  have hnd := Values.keys_nodup v
  rw [Values.pairs, List.map_flatMap]
  simp only [List.map_map, Function.comp_def, List.Sorted]
  rw [List.pairwise_flatMap]
  constructor
  · intro a _
    rw [List.pairwise_map]
    exact List.pairwise_of_forall (fun _ _ => le_refl a)
  · refine List.Pairwise.imp ?_ hs
    intro a b hab x hx y hy
    simp only [List.mem_map] at hx hy
    obtain ⟨_, _, rfl⟩ := hx
    obtain ⟨_, _, rfl⟩ := hy
    exact hab


/-! ## Lemmas: the request builder -/

theorem resourceArtifactRequest_of_mode (d : configProvider) (src : URL) (m : Mode)
    (hmode : (d.mode = lit "any" ∧ m = .ModeAny) ∨ (d.mode = lit "dir" ∧ m = .ModeDir) ∨
      (d.mode = lit "file" ∧ m = .ModeFile))
    (hparse : Parse d.url = .ok src) :
    resourceArtifactRequest d = .ok
      { Src := (requestURL d src).String, Dst := d.dest,
        Pwd := if (GetOk d.workdir).2 then (GetOk d.workdir).1 else [], GetMode := m } := by
  have hne1 : lit "dir" ≠ lit "any" := by decide
  have hne2 : lit "file" ≠ lit "any" := by decide
  have hne3 : lit "file" ≠ lit "dir" := by decide
  rcases hmode with ⟨h, rfl⟩ | ⟨h, rfl⟩ | ⟨h, rfl⟩ <;>
    · simp only [resourceArtifactRequest, h, hparse, hne1, hne2, hne3, if_true, if_false]
      split <;> rfl

theorem resourceArtifactRequest_invalid_mode (d : configProvider) (h1 : d.mode ≠ lit "any")
    (h2 : d.mode ≠ lit "dir") (h3 : d.mode ≠ lit "file") :
    resourceArtifactRequest d = .error (.invalidMode d.mode) := by
  simp [resourceArtifactRequest, h1, h2, h3]

theorem resourceArtifactRequest_ok_valid (d : configProvider) (src : URL)
    (hmode : d.mode = lit "any" ∨ d.mode = lit "dir" ∨ d.mode = lit "file")
    (hparse : Parse d.url = .ok src) :
    ∃ m, resourceArtifactRequest d = .ok
      { Src := (requestURL d src).String, Dst := d.dest,
        Pwd := if (GetOk d.workdir).2 then (GetOk d.workdir).1 else [], GetMode := m } := by
  rcases hmode with h | h | h
  · exact ⟨_, resourceArtifactRequest_of_mode d src .ModeAny (Or.inl ⟨h, rfl⟩) hparse⟩
  · exact ⟨_, resourceArtifactRequest_of_mode d src .ModeDir (Or.inr (Or.inl ⟨h, rfl⟩)) hparse⟩
  · exact ⟨_, resourceArtifactRequest_of_mode d src .ModeFile (Or.inr (Or.inr ⟨h, rfl⟩)) hparse⟩

theorem requestURL_String (d : configProvider) (src : URL) :
    (requestURL d src).String =
      src.beforeQuery ++
        (if src.ForceQuery ∨ (requestParams d src).Encode ≠ [] then
          63 :: (requestParams d src).Encode else []) ++
        src.fragmentSuffix := rfl

theorem queryValues_eq_get (query key : Str) :
    queryValues query key = (ParseQuery query).1.get key := by
  have h := Values.get_foldl_Add (queryPairs query) [] key
  rw [show Values.get [] key = [] from rfl, List.nil_append] at h
  exact h.symm

theorem requestParams_get (d : configProvider) (src : URL) (k : Str) :
    (requestParams d src).get k =
      if d.insecure = true ∧ k = lit "insecure" then [lit "true"]
      else if (GetOk d.checksum).2 = true ∧ k = lit "checksum" then [(GetOk d.checksum).1]
      else if (GetOk d.archive).2 = true ∧ k = lit "archive" then [(GetOk d.archive).1]
      else queryValues src.RawQuery k := by
  rw [queryValues_eq_get]
  unfold requestParams URL.Query
  by_cases hi : d.insecure = true <;> by_cases hc : (GetOk d.checksum).2 = true <;>
    by_cases ha : (GetOk d.archive).2 = true <;>
    by_cases k1 : k = lit "insecure" <;> by_cases k2 : k = lit "checksum" <;>
    by_cases k3 : k = lit "archive" <;>
    simp [hi, hc, ha, k1, k2, k3, Values.get_Set]


/-! ## The claims about `resourceArtifactRequest` -/

/-- C1: `resourceArtifactRequest` maps the mode attribute exactly.  When the
url parses, mode `any`, `dir` and `file` give a request whose `GetMode` is
`ModeAny`, `ModeDir` and `ModeFile`; every other mode string gives the
invalid-mode error and no request, whatever the other attributes are, the url
included. -/
theorem resourceArtifactRequest_maps_mode (d : configProvider) :
    (∀ src, Parse d.url = .ok src →
      (d.mode = lit "any" →
        ∃ req, resourceArtifactRequest d = .ok req ∧ req.GetMode = .ModeAny) ∧
      (d.mode = lit "dir" →
        ∃ req, resourceArtifactRequest d = .ok req ∧ req.GetMode = .ModeDir) ∧
      (d.mode = lit "file" →
        ∃ req, resourceArtifactRequest d = .ok req ∧ req.GetMode = .ModeFile)) ∧
    (d.mode ≠ lit "any" → d.mode ≠ lit "dir" → d.mode ≠ lit "file" →
      resourceArtifactRequest d = .error (.invalidMode d.mode)) := by
  refine ⟨fun src hparse => ⟨fun h => ?_, fun h => ?_, fun h => ?_⟩,
    resourceArtifactRequest_invalid_mode d⟩
  · exact ⟨_, resourceArtifactRequest_of_mode d src .ModeAny (Or.inl ⟨h, rfl⟩) hparse, rfl⟩
  · exact ⟨_, resourceArtifactRequest_of_mode d src .ModeDir (Or.inr (Or.inl ⟨h, rfl⟩)) hparse,
      rfl⟩
  · exact ⟨_, resourceArtifactRequest_of_mode d src .ModeFile (Or.inr (Or.inr ⟨h, rfl⟩)) hparse,
      rfl⟩

/-- Witness of C1: mode `dir` on a url that parses, and the mode `tree` on the
malformed url `:`. -/
theorem resourceArtifactRequest_maps_mode_witness :
    (∃ req, resourceArtifactRequest { testCaseChecksum with mode := lit "dir" } = .ok req ∧
      req.GetMode = .ModeDir) ∧
    Parse (lit ":") = .error .missingProtocolScheme ∧
    resourceArtifactRequest { url := lit ":", mode := lit "tree" } =
      .error (.invalidMode (lit "tree")) :=
  ⟨((resourceArtifactRequest_maps_mode { testCaseChecksum with mode := lit "dir" }).1
      testCaseChecksumURL (by decide)).2.1 (by decide),
    by decide,
    (resourceArtifactRequest_maps_mode { url := lit ":", mode := lit "tree" }).2
      (by decide) (by decide) (by decide)⟩

/-- C2: for a url that parses (to `src`) and a valid mode, the request is built
and its `Src` is the url with the query string `(requestParams d src).Encode`;
for each option among `archive`, `checksum`, `insecure` that is configured
(a non-empty string, or `true`) that query string carries exactly one value
for the key, the configured one, whatever the url carried for it. -/
theorem resourceArtifactRequest_option_overrides_query (d : configProvider) (src : URL)
    (hmode : d.mode = lit "any" ∨ d.mode = lit "dir" ∨ d.mode = lit "file")
    (hparse : Parse d.url = .ok src) :
    ∃ req, resourceArtifactRequest d = .ok req ∧
      (∀ archive, d.archive = some archive → archive ≠ [] →
        req.Src = src.beforeQuery ++ 63 :: (requestParams d src).Encode ++ src.fragmentSuffix ∧
        queryValues (requestParams d src).Encode (lit "archive") = [archive]) ∧
      (∀ checksum, d.checksum = some checksum → checksum ≠ [] →
        req.Src = src.beforeQuery ++ 63 :: (requestParams d src).Encode ++ src.fragmentSuffix ∧
        queryValues (requestParams d src).Encode (lit "checksum") = [checksum]) ∧
      (d.insecure = true →
        req.Src = src.beforeQuery ++ 63 :: (requestParams d src).Encode ++ src.fragmentSuffix ∧
        queryValues (requestParams d src).Encode (lit "insecure") = [lit "true"]) := by
  obtain ⟨m, hreq⟩ := resourceArtifactRequest_ok_valid d src hmode hparse
  have hshape : ∀ k v, queryValues (requestParams d src).Encode k = [v] →
      (requestURL d src).String =
        src.beforeQuery ++ 63 :: (requestParams d src).Encode ++ src.fragmentSuffix := by
    intro k v hv
    have hne : (requestParams d src).Encode ≠ [] := by
      intro h0
      rw [h0] at hv
      exact absurd hv (by simp [queryValues, queryPairs, splitOn, parsePair])
    rw [requestURL_String, if_pos (Or.inr hne)]
  have hne1 : lit "archive" ≠ lit "insecure" := by decide
  have hne2 : lit "archive" ≠ lit "checksum" := by decide
  have hne3 : lit "checksum" ≠ lit "insecure" := by decide
  refine ⟨_, hreq, ?_, ?_, ?_⟩
  · intro archive ha hne
    have hv : queryValues (requestParams d src).Encode (lit "archive") = [archive] := by
      rw [queryValues_Encode, requestParams_get]
      simp [ha, GetOk, hne, hne1, hne2]
    exact ⟨hshape _ _ hv, hv⟩
  · intro checksum hc hne
    have hv : queryValues (requestParams d src).Encode (lit "checksum") = [checksum] := by
      rw [queryValues_Encode, requestParams_get]
      simp [hc, GetOk, hne, hne3]
    exact ⟨hshape _ _ hv, hv⟩
  · intro hi
    have hv : queryValues (requestParams d src).Encode (lit "insecure") = [lit "true"] := by
      rw [queryValues_Encode, requestParams_get]
      simp [hi]
    exact ⟨hshape _ _ hv, hv⟩

/-- Witness of C2: url `foo/bar.zip?checksum=file:123` with checksum `md5:123`
gives `foo/bar.zip?checksum=md5%3A123`, whose query carries `md5:123` alone. -/
theorem resourceArtifactRequest_option_overrides_query_witness :
    (resourceArtifactRequest testCaseChecksum).map (fun req => req.Src) =
      .ok (lit "foo/bar.zip?checksum=md5%3A123") ∧
    (requestParams testCaseChecksum testCaseChecksumURL).Encode = lit "checksum=md5%3A123" ∧
    queryValues testCaseChecksumURL.RawQuery (lit "checksum") = [lit "file:123"] ∧
    ∃ req, resourceArtifactRequest testCaseChecksum = .ok req ∧
      req.Src = testCaseChecksumURL.beforeQuery ++
        63 :: (requestParams testCaseChecksum testCaseChecksumURL).Encode ++
          testCaseChecksumURL.fragmentSuffix ∧
      queryValues (requestParams testCaseChecksum testCaseChecksumURL).Encode (lit "checksum") =
        [lit "md5:123"] :=
  ⟨by decide, by decide, by decide,
    match resourceArtifactRequest_option_overrides_query testCaseChecksum testCaseChecksumURL
      (by decide) (by decide) with
    | ⟨req, hreq, _, hc, _⟩ => ⟨req, hreq, hc (lit "md5:123") rfl (by decide)⟩⟩


theorem mem_queryPairs_keys (v : Values) (k value : Str) (h : v.get k = [value]) :
    k ∈ (queryPairs v.Encode).map Prod.fst := by
  have hf := Values.filter_pairs v k
  rw [h] at hf
  have hmem : (k, value) ∈ v.pairs.filter fun kv => kv.1 = k := by
    rw [hf]
    simp
  rw [queryPairs_Encode]
  exact List.mem_map.mpr ⟨(k, value), (List.mem_filter.mp hmem).1, rfl⟩

/-- C3: for a url that parses (to `src`) and a valid mode, the request is built,
its `Src` is the url with the query string `(requestParams d src).Encode`
(written after `?` when it is not empty), the parameters of that query string
come in ascending order of their keys, and the keys `archive`, `checksum`,
`insecure` are among them whenever the option is configured. -/
theorem resourceArtifactRequest_query_sorted (d : configProvider) (src : URL)
    (hmode : d.mode = lit "any" ∨ d.mode = lit "dir" ∨ d.mode = lit "file")
    (hparse : Parse d.url = .ok src) :
    ∃ req, resourceArtifactRequest d = .ok req ∧
      req.Src = src.beforeQuery ++
        (if src.ForceQuery ∨ (requestParams d src).Encode ≠ [] then
          63 :: (requestParams d src).Encode else []) ++ src.fragmentSuffix ∧
      ((queryPairs (requestParams d src).Encode).map Prod.fst).Sorted (· ≤ ·) ∧
      (∀ archive, d.archive = some archive → archive ≠ [] →
        lit "archive" ∈ (queryPairs (requestParams d src).Encode).map Prod.fst) ∧
      (∀ checksum, d.checksum = some checksum → checksum ≠ [] →
        lit "checksum" ∈ (queryPairs (requestParams d src).Encode).map Prod.fst) ∧
      (d.insecure = true →
        lit "insecure" ∈ (queryPairs (requestParams d src).Encode).map Prod.fst) := by
  obtain ⟨m, hreq⟩ := resourceArtifactRequest_ok_valid d src hmode hparse
  have hne1 : lit "archive" ≠ lit "insecure" := by decide
  have hne2 : lit "archive" ≠ lit "checksum" := by decide
  have hne3 : lit "checksum" ≠ lit "insecure" := by decide
  refine ⟨_, hreq, requestURL_String d src, ?_, ?_, ?_, ?_⟩
  · rw [queryPairs_Encode]
    exact Values.pairs_sorted _
  · intro archive ha hne
    apply mem_queryPairs_keys _ _ archive
    rw [requestParams_get]
    simp [ha, GetOk, hne, hne1, hne2]
  · intro checksum hc hne
    apply mem_queryPairs_keys _ _ checksum
    rw [requestParams_get]
    simp [hc, GetOk, hne, hne3]
  · intro hi
    apply mem_queryPairs_keys _ _ (lit "true")
    rw [requestParams_get]
    simp [hi]

/-- Witness of C3: `file:///tmp/foo.zip?bar=qux` with archive `false` and
insecure true gives `file:///tmp/foo.zip?archive=false&bar=qux&insecure=true`. -/
theorem resourceArtifactRequest_query_sorted_witness :
    (resourceArtifactRequest testCaseArchive).map (fun req => req.Src) =
      .ok (lit "file:///tmp/foo.zip?archive=false&bar=qux&insecure=true") ∧
    (queryPairs (requestParams testCaseArchive testCaseArchiveURL).Encode).map Prod.fst =
      [lit "archive", lit "bar", lit "insecure"] ∧
    ∃ req, resourceArtifactRequest testCaseArchive = .ok req ∧
      ((queryPairs (requestParams testCaseArchive testCaseArchiveURL).Encode).map
        Prod.fst).Sorted (· ≤ ·) ∧
      lit "archive" ∈
        (queryPairs (requestParams testCaseArchive testCaseArchiveURL).Encode).map Prod.fst ∧
      lit "insecure" ∈
        (queryPairs (requestParams testCaseArchive testCaseArchiveURL).Encode).map Prod.fst :=
  ⟨by decide, by decide,
    match resourceArtifactRequest_query_sorted testCaseArchive testCaseArchiveURL
      (by decide) (by decide) with
    | ⟨req, hreq, _, hsorted, ha, _, hi⟩ =>
      ⟨req, hreq, hsorted, ha (lit "false") rfl (by decide), hi rfl⟩⟩

theorem mem_queryValues_iff (query key value : Str) :
    value ∈ queryValues query key ↔ (key, value) ∈ queryPairs query := by
  simp only [queryValues, List.mem_map, List.mem_filter, decide_eq_true_eq]
  constructor
  · rintro ⟨kv, ⟨hmem, hk⟩, hv⟩
    obtain ⟨k, v⟩ := kv
    simp only at hk hv
    subst hk
    subst hv
    exact hmem
  · intro h
    exact ⟨(key, value), ⟨h, rfl⟩, rfl⟩

theorem mem_queryPairs_of_segment (query seg : Str) (kv : Str × Str)
    (hseg : seg ∈ querySegments query) (hkv : parsePair seg = .ok (some kv)) :
    kv ∈ queryPairs query := by
  have hmem : seg ∈ splitOn 38 query := (List.mem_filter.mp hseg).1
  rw [queryPairs, List.mem_filterMap]
  exact ⟨seg, hmem, by rw [hkv]⟩

/-- C4, refuted: the url `foo?a=%zz&b=1` parses, its query holds the parameter
`a=%zz`, whose key is none of `archive`, `checksum`, `insecure`, and the
source that is built, `foo?b=1`, holds no parameter `a`, neither as written nor
decoded; the same happens to the parameter `a=1;b=2` of `foo?a=1;b=2&c=3`.  So
not every parameter of a url that parses is kept. -/
theorem resourceArtifactRequest_drops_rejected_parameter :
    Parse (lit "foo?a=%zz&b=1") = .ok { Path := lit "foo", RawQuery := lit "a=%zz&b=1" } ∧
    querySegments (lit "a=%zz&b=1") = [lit "a=%zz", lit "b=1"] ∧
    segmentKey (lit "a=%zz") = lit "a" ∧
    (resourceArtifactRequest { url := lit "foo?a=%zz&b=1", mode := lit "any" }).map
      (fun req => req.Src) = .ok (lit "foo?b=1") ∧
    segmentKept (lit "a=%zz") (lit "b=1") = false ∧
    (resourceArtifactRequest { url := lit "foo?a=1;b=2&c=3", mode := lit "any" }).map
      (fun req => req.Src) = .ok (lit "foo?c=3") ∧
    ¬ (∀ (d : configProvider) (src : URL),
        d.mode = lit "any" ∨ d.mode = lit "dir" ∨ d.mode = lit "file" →
        Parse d.url = .ok src →
        ∀ seg ∈ querySegments src.RawQuery,
          segmentKey seg ≠ lit "archive" → segmentKey seg ≠ lit "checksum" →
          segmentKey seg ≠ lit "insecure" →
          segmentKept seg (requestParams d src).Encode = true) := by
  refine ⟨by decide, by decide, by decide, by decide, by decide, by decide, ?_⟩
  intro h
  have h1 := h { url := lit "foo?a=%zz&b=1", mode := lit "any" }
    { Path := lit "foo", RawQuery := lit "a=%zz&b=1" } (by decide) (by decide) (lit "a=%zz")
    (by decide) (by decide) (by decide) (by decide)
  exact absurd h1 (by decide)

/-- C4, amended: `resourceArtifactRequest` leaves what it is not asked to
change, as far as `url.ParseQuery` reads the url.  For a url that parses (to
`src`) and a valid mode the request is built and its `Src` is the url with the
query string `(requestParams d src).Encode`; every parameter of the url that
`url.ParseQuery` accepts and whose key is none of `archive`, `checksum`,
`insecure` is a parameter of that query string, and every such key has there
the values `url.ParseQuery` reads for it in the url; so has a key among the
three whose option is not configured; `Dst` is `dest`; `Pwd` is `workdir` when
set and empty otherwise. -/
theorem resourceArtifactRequest_keeps_parsed_parameters (d : configProvider) (src : URL)
    (hmode : d.mode = lit "any" ∨ d.mode = lit "dir" ∨ d.mode = lit "file")
    (hparse : Parse d.url = .ok src) :
    ∃ req, resourceArtifactRequest d = .ok req ∧
      req.Src = src.beforeQuery ++
        (if src.ForceQuery ∨ (requestParams d src).Encode ≠ [] then
          63 :: (requestParams d src).Encode else []) ++ src.fragmentSuffix ∧
      (∀ seg ∈ querySegments src.RawQuery, ∀ kv, parsePair seg = .ok (some kv) →
        kv.1 ≠ lit "archive" → kv.1 ≠ lit "checksum" → kv.1 ≠ lit "insecure" →
        kv ∈ queryPairs (requestParams d src).Encode) ∧
      (∀ key, key ≠ lit "archive" → key ≠ lit "checksum" → key ≠ lit "insecure" →
        queryValues (requestParams d src).Encode key = queryValues src.RawQuery key) ∧
      (d.archive = none ∨ d.archive = some [] →
        queryValues (requestParams d src).Encode (lit "archive") =
          queryValues src.RawQuery (lit "archive")) ∧
      (d.checksum = none ∨ d.checksum = some [] →
        queryValues (requestParams d src).Encode (lit "checksum") =
          queryValues src.RawQuery (lit "checksum")) ∧
      (d.insecure = false →
        queryValues (requestParams d src).Encode (lit "insecure") =
          queryValues src.RawQuery (lit "insecure")) ∧
      req.Dst = d.dest ∧
      req.Pwd = (match d.workdir with
        | some workdir => workdir
        | none => []) := by
  obtain ⟨m, hreq⟩ := resourceArtifactRequest_ok_valid d src hmode hparse
  have hne1 : lit "archive" ≠ lit "insecure" := by decide
  have hne2 : lit "archive" ≠ lit "checksum" := by decide
  have hne3 : lit "checksum" ≠ lit "insecure" := by decide
  have hkeys : ∀ key, key ≠ lit "archive" → key ≠ lit "checksum" → key ≠ lit "insecure" →
      queryValues (requestParams d src).Encode key = queryValues src.RawQuery key := by
    intro key h1 h2 h3
    rw [queryValues_Encode, requestParams_get]
    simp [h1, h2, h3]
  refine ⟨_, hreq, requestURL_String d src, ?_, hkeys, ?_, ?_, ?_, rfl, ?_⟩
  · intro seg hseg kv hkv h1 h2 h3
    have hmem := mem_queryPairs_of_segment _ _ _ hseg hkv
    have hval : kv.2 ∈ queryValues src.RawQuery kv.1 := (mem_queryValues_iff _ _ _).mpr hmem
    rw [← hkeys kv.1 h1 h2 h3] at hval
    exact (mem_queryValues_iff _ _ _).mp hval
  · intro ha
    rw [queryValues_Encode, requestParams_get]
    rcases ha with ha | ha <;> simp [ha, GetOk, hne1, hne2]
  · intro hc
    rw [queryValues_Encode, requestParams_get]
    rcases hc with hc | hc <;> simp [hc, GetOk, hne3, hne2.symm]
  · intro hi
    rw [queryValues_Encode, requestParams_get]
    simp [hi, hne3.symm, hne1.symm]
  · cases hw : d.workdir with
    | none => simp [GetOk]
    | some w =>
      by_cases h : w = []
      · simp [GetOk, h]
      · simp [GetOk, h]

/-- Witness of the amended C4: in `file:///tmp/foo.zip?bar=qux` with archive
`false` and insecure true the parameter `bar=qux` is kept, no `checksum`
appears, and `Dst` is `/tmp`. -/
theorem resourceArtifactRequest_keeps_parsed_parameters_witness :
    queryValues testCaseArchiveURL.RawQuery (lit "bar") = [lit "qux"] ∧
    ∃ req, resourceArtifactRequest testCaseArchive = .ok req ∧
      (lit "bar", lit "qux") ∈
        queryPairs (requestParams testCaseArchive testCaseArchiveURL).Encode ∧
      queryValues (requestParams testCaseArchive testCaseArchiveURL).Encode (lit "bar") =
        queryValues testCaseArchiveURL.RawQuery (lit "bar") ∧
      queryValues (requestParams testCaseArchive testCaseArchiveURL).Encode (lit "checksum") =
        queryValues testCaseArchiveURL.RawQuery (lit "checksum") ∧
      req.Dst = lit "/tmp" ∧ req.Pwd = [] :=
  ⟨by decide,
    match resourceArtifactRequest_keeps_parsed_parameters testCaseArchive testCaseArchiveURL
      (by decide) (by decide) with
    | ⟨req, hreq, _, hseg, hkey, _, hc, _, hdst, hpwd⟩ =>
      ⟨req, hreq,
        hseg (lit "bar=qux") (by decide) (lit "bar", lit "qux") (by decide) (by decide)
          (by decide) (by decide),
        hkey (lit "bar") (by decide) (by decide) (by decide), hc (Or.inl rfl), hdst, hpwd⟩⟩


/-! ## The claims about `resourceArtifactSum` -/

/-- C5: for a checksum whose rendered string is `alg:hex`, with `alg` free of
colons and `hex` the hex encoding of the digest bytes `b`, `resourceArtifactSum`
returns the rendered string, the padded standard base64 of `b`, and true; the
base64 component decodes to `b`, and the text after the first colon of the
first component hex-decodes to `b`. -/
theorem resourceArtifactSum_well_formed (c : FileChecksum) (alg : Str) (b : List Byte)
    (halg : (58 : Byte) ∉ alg) (hrender : c.String = alg ++ 58 :: hexEncodeToString b) :
    resourceArtifactSum (some c) =
      (alg ++ 58 :: hexEncodeToString b, base64StdEncodeToString b, true) ∧
    base64StdDecodeString (resourceArtifactSum (some c)).2.1 = some b ∧
    ∃ hex, cut 58 (resourceArtifactSum (some c)).1 = some (alg, hex) ∧
      hexDecodeString hex = .ok b := by
  have hcut : cut 58 (alg ++ 58 :: hexEncodeToString b) = some (alg, hexEncodeToString b) :=
    cut_append _ halg
  have hsum : resourceArtifactSum (some c) =
      (alg ++ 58 :: hexEncodeToString b, base64StdEncodeToString b, true) := by
    rw [resourceArtifactSum, hrender]
    exact resourceArtifactSumOf_colon_ok _ _ _ _ hcut (hexDecodeString_hexEncodeToString b)
  refine ⟨hsum, ?_, ?_⟩
  · rw [hsum]
    exact base64StdDecodeString_encode b
  · rw [hsum]
    exact ⟨_, hcut, hexDecodeString_hexEncodeToString b⟩

/-- Witness of C5: the SHA-256 checksum of `abc`. -/
theorem resourceArtifactSum_well_formed_witness :
    (58 : Byte) ∉ lit "sha256" ∧
    testChecksumAbc.String =
      lit "sha256:ba7816bf8f01cfea414140de5dae2223b00361a396177a9cb410ff61f20015ad" ∧
    base64StdEncodeToString testChecksumAbc.Value =
      lit "ungWv48Bz+pBQUDeXa4iI7ADYaOWF3qctBD/YfIAFa0=" ∧
    resourceArtifactSum (some testChecksumAbc) =
      (lit "sha256" ++ 58 :: hexEncodeToString testChecksumAbc.Value,
        base64StdEncodeToString testChecksumAbc.Value, true) ∧
    base64StdDecodeString (resourceArtifactSum (some testChecksumAbc)).2.1 =
      some testChecksumAbc.Value ∧
    ∃ hex, cut 58 (resourceArtifactSum (some testChecksumAbc)).1 = some (lit "sha256", hex) ∧
      hexDecodeString hex = .ok testChecksumAbc.Value :=
  ⟨by decide, by decide, by decide,
    resourceArtifactSum_well_formed testChecksumAbc (lit "sha256") testChecksumAbc.Value
      (by decide) rfl⟩

/-- C6: `resourceArtifactSum` is total and degrades without an error.  Its flag
is true exactly for a non-nil checksum; nil gives `("", "", false)`; a non-nil
checksum is formatted from its rendered string, and a rendered string without
colon, or whose text after the first colon has odd length or a byte that is not
a hex digit, gives the rendered string, an empty base64 form, and true. -/
theorem resourceArtifactSum_degrades :
    (∀ checksum, (resourceArtifactSum checksum).2.2 = true ↔ checksum ≠ none) ∧
    resourceArtifactSum none = ([], [], false) ∧
    (∀ c : FileChecksum, resourceArtifactSum (some c) = resourceArtifactSumOf c.String) ∧
    (∀ sum : Str, (58 : Byte) ∉ sum → resourceArtifactSumOf sum = (sum, [], true)) ∧
    (∀ sum before hex : Str, cut 58 sum = some (before, hex) →
      (hex.length % 2 = 1 ∨ ∃ b ∈ hex, fromHexChar b = none) →
      resourceArtifactSumOf sum = (sum, [], true)) := by
  refine ⟨?_, rfl, fun _ => rfl, resourceArtifactSumOf_no_colon, ?_⟩
  · intro checksum
    cases checksum with
    | none => simp [resourceArtifactSum]
    | some c => simp [resourceArtifactSum, resourceArtifactSumOf_present]
  · intro sum before hex hcut hbad
    obtain ⟨e, he⟩ := hexDecodeString_error_of_bad hex hbad
    exact resourceArtifactSumOf_colon_error _ _ _ e hcut he

/-- Witness of C6: the rendered strings `abc` (no colon), `md5:123` (odd
length) and `md5:12zz` (not hex), and a checksum whose type holds a colon. -/
theorem resourceArtifactSum_degrades_witness :
    resourceArtifactSumOf (lit "abc") = (lit "abc", [], true) ∧
    resourceArtifactSumOf (lit "md5:123") = (lit "md5:123", [], true) ∧
    resourceArtifactSumOf (lit "md5:12zz") = (lit "md5:12zz", [], true) ∧
    resourceArtifactSum (some { Typ := lit "a:b", Value := [1] }) = (lit "a:b:01", [], true) :=
  ⟨resourceArtifactSum_degrades.2.2.2.1 (lit "abc") (by decide),
    resourceArtifactSum_degrades.2.2.2.2 (lit "md5:123") (lit "md5") (lit "123") (by decide)
      (Or.inl (by decide)),
    resourceArtifactSum_degrades.2.2.2.2 (lit "md5:12zz") (lit "md5") (lit "12zz") (by decide)
      (Or.inr ⟨122, by decide, by decide⟩),
    (resourceArtifactSum_degrades.2.2.1 { Typ := lit "a:b", Value := [1] }).trans
      (resourceArtifactSum_degrades.2.2.2.2 (lit "a:b:01") (lit "a") (lit "b:01") (by decide)
        (Or.inr ⟨58, by decide, by decide⟩))⟩


/-! ## Lemmas: the handlers -/

theorem resourceArtifactSum_some_fst (c : FileChecksum) :
    (resourceArtifactSum (some c)).1 = c.String :=
  resourceArtifactSumOf_fst c.String

theorem resourceArtifactCreate_of_request_error (client : Client) (d : ResourceData) (fs : FS)
    (err : RequestError) (hreq : resourceArtifactRequest d.attrs = .error err) :
    resourceArtifactCreate client d fs = { d := d, fs := fs, diags := some (.fromRequest err) } := by
  simp [resourceArtifactCreate, hreq]

theorem resourceArtifactCreate_of_get_error (client : Client) (d : ResourceData) (fs fs1 : FS)
    (req : Request) (err : Str) (hreq : resourceArtifactRequest d.attrs = .ok req)
    (hget : client.Get req fs = (fs1, some err)) :
    resourceArtifactCreate client d fs =
      { d := d, fs := fs1, calls := [.Get req], diags := some (.gettingUrl err) } := by
  simp [resourceArtifactCreate, hreq, hget]

theorem resourceArtifactCreate_of_checksum_error (client : Client) (d : ResourceData)
    (fs fs1 fs2 : FS) (req : Request) (err : Str)
    (hreq : resourceArtifactRequest d.attrs = .ok req) (hget : client.Get req fs = (fs1, none))
    (hsum : client.GetChecksum req fs1 = (fs2, .error err)) :
    resourceArtifactCreate client d fs =
      { d := d, fs := fs2, calls := [.Get req, .GetChecksum req],
        diags := some (.gettingChecksum err) } := by
  simp [resourceArtifactCreate, hreq, hget, hsum]

theorem resourceArtifactCreate_of_checksum (client : Client) (d : ResourceData)
    (fs fs1 fs2 : FS) (req : Request) (checksum : Option FileChecksum)
    (hreq : resourceArtifactRequest d.attrs = .ok req) (hget : client.Get req fs = (fs1, none))
    (hsum : client.GetChecksum req fs1 = (fs2, .ok checksum)) :
    resourceArtifactCreate client d fs =
      { d := if (resourceArtifactSum checksum).2.2 then
            { attrs := { d.attrs with sum := some (resourceArtifactSum checksum).1,
                                      sum64 := some (resourceArtifactSum checksum).2.1 },
              id := (resourceArtifactSum checksum).1 }
          else { d with id := fallbackId req },
        fs := fs2, calls := [.Get req, .GetChecksum req], diags := none } := by
  simp [resourceArtifactCreate, hreq, hget, hsum, resourceArtifactRead]

theorem fallbackId_eq_iff (req1 req2 : Request) :
    fallbackId req1 = fallbackId req2 ↔ req1.Src = req2.Src := by
  constructor
  · intro h
    have h2 := base64Encode_raw_injective _ _ h
    exact List.append_cancel_right h2
  · intro h
    simp [fallbackId, h]

/-! ## Lemmas: the filesystem -/

theorem lookup_filter_ne_loc (l : List (Loc × Node)) (k key : Loc) (h : k ≠ key) :
    (l.filter fun e => e.1 ≠ key).lookup k = l.lookup k := by
  induction l with
  | nil => rfl
  | cons e es ih =>
    obtain ⟨a, nd⟩ := e
    by_cases ha : a = key
    · subst ha
      have hka : (k == a) = false := by simpa using h
      rw [List.filter_cons_of_neg (by simp), ih, List.lookup_cons, hka]
    · rw [List.filter_cons_of_pos (by simpa using ha), List.lookup_cons, List.lookup_cons, ih]

theorem lookup_filter_self_loc (l : List (Loc × Node)) (key : Loc) :
    (l.filter fun e => e.1 ≠ key).lookup key = none := by
  rw [List.lookup_eq_none_iff]
  intro p hp
  have hne : p.1 ≠ key := by simpa using (List.mem_filter.mp hp).2
  simpa using hne.symm

theorem FS.node_erase_of_ne (fs : FS) (loc target : Loc) (h : loc ≠ target) :
    (fs.erase target).node loc = fs.node loc := by
  unfold FS.node FS.erase
  by_cases h0 : loc = []
  · rw [if_pos h0, if_pos h0]
  · rw [if_neg h0, if_neg h0]
    exact lookup_filter_ne_loc _ _ _ h

theorem FS.node_erase_self (fs : FS) (target : Loc) (ht : target ≠ []) :
    (fs.erase target).node target = none := by
  unfold FS.node FS.erase
  rw [if_neg ht]
  exact lookup_filter_self_loc _ _

theorem FS.node_erase (fs : FS) (loc target : Loc) (ht : target ≠ []) :
    (fs.erase target).node loc = if loc = target then none else fs.node loc := by
  by_cases h : loc = target
  · rw [if_pos h, h]
    exact FS.node_erase_self fs target ht
  · rw [if_neg h]
    exact FS.node_erase_of_ne fs loc target h

theorem FS.walkWith_append (fs : FS) (sub : Loc → List Str → Option Loc) (cur : Loc)
    (xs ys : List Str) :
    fs.walkWith sub cur (xs ++ ys) =
      (fs.walkWith sub cur xs).bind fun loc => fs.walkWith sub loc ys := by
  induction xs generalizing cur with
  | nil => simp [FS.walkWith]
  | cons name rest ih =>
    simp only [List.cons_append, FS.walkWith]
    split
    · rfl
    · split
      · exact ih _
      · split
        · exact ih _
        · split
          · rfl
          · split
            · rfl
            · split
              · rfl
              · exact ih _
          · exact ih _

/-- Resolution after the removal of an entry fails or gives what it gave. -/
theorem FS.walkWith_erase (fs : FS) (target : Loc) (ht : target ≠ [])
    (sub2 sub : Loc → List Str → Option Loc)
    (hsub : ∀ c ys, sub2 c ys = none ∨ sub2 c ys = sub c ys) (cur : Loc) (xs : List Str) :
    (fs.erase target).walkWith sub2 cur xs = none ∨
      (fs.erase target).walkWith sub2 cur xs = fs.walkWith sub cur xs := by
  induction xs generalizing cur with
  | nil => right; rfl
  | cons name rest ih =>
    by_cases hcur : (fs.erase target).node cur = some .dir
    · have hcur2 : fs.node cur = some .dir := by
        rw [FS.node_erase fs cur target ht] at hcur
        split at hcur
        · cases hcur
        · exact hcur
      simp only [FS.walkWith, hcur, hcur2, ne_eq, not_true_eq_false, if_false]
      split
      · exact ih _
      · split
        · exact ih _
        · by_cases hchild : cur ++ [name] = target
          · left
            rw [FS.node_erase fs _ target ht, if_pos hchild]
          · rw [FS.node_erase_of_ne fs _ target hchild]
            cases hnode : fs.node (cur ++ [name]) with
            | none => left; rfl
            | some nd =>
              cases nd with
              | file content => exact ih _
              | dir => exact ih _
              | symlink t =>
                simp only
                split
                · left; rfl
                · rcases hsub (if (lit "/").isPrefixOf t = true then [] else cur)
                    (splitOn 47 t) with h | h
                  · left
                    rw [h]
                  · rw [h]
                    cases sub (if (lit "/").isPrefixOf t = true then [] else cur)
                      (splitOn 47 t) with
                    | none => left; rfl
                    | some loc => exact ih _
    · left
      simp [FS.walkWith, hcur]

theorem FS.walk_erase (fs : FS) (target : Loc) (ht : target ≠ []) (depth : Nat) (cur : Loc)
    (xs : List Str) :
    (fs.erase target).walk depth cur xs = none ∨
      (fs.erase target).walk depth cur xs = fs.walk depth cur xs := by
  induction depth generalizing cur xs with
  | zero => exact FS.walkWith_erase fs target ht _ _ (fun _ _ => Or.inl rfl) cur xs
  | succ n ih => exact FS.walkWith_erase fs target ht _ _ (fun c ys => ih c ys) cur xs

theorem FS.walk_eq_walkWith (fs : FS) (depth : Nat) :
    ∃ sub, fs.walk depth = fs.walkWith sub := by
  cases depth with
  | zero => exact ⟨_, rfl⟩
  | succ n => exact ⟨_, rfl⟩


theorem dropWhile_head_not {α : Type} (p : α → Bool) (l : List α) (a : α) (t : List α)
    (h : l.dropWhile p = a :: t) : p a = false := by
  induction l with
  | nil => simp at h
  | cons x xs ih =>
    rw [List.dropWhile_cons] at h
    split at h
    · exact ih h
    · rename_i hx
      simp only [List.cons.injEq] at h
      rw [← h.1]
      simpa using hx

/-- What `FS.entry` has checked when it returns an entry. -/
theorem FS.entry_ok (fs : FS) (name : Str) (loc : Loc) (h : fs.entry name = .ok loc) :
    ∃ parents last trail parent,
      splitOn 47 name = parents ++ last :: trail ∧ last ≠ [] ∧ last ≠ lit "." ∧
      last ≠ lit ".." ∧ fs.walk maxSymlinks (fs.start name) parents = some parent ∧
      fs.node parent = some .dir ∧ loc = parent ++ [last] := by
  unfold FS.entry at h
  split at h
  · cases h
  · rename_i last parents hdrop
    have hlast : last ≠ [] := by
      have := dropWhile_head_not _ _ _ _ hdrop
      simpa using this
    have hsplit : splitOn 47 name =
        parents.reverse ++ last ::
          ((splitOn 47 name).reverse.takeWhile fun c => decide (c = [])).reverse := by
      have h1 := List.takeWhile_append_dropWhile (fun c => decide (c = []))
        (splitOn 47 name).reverse
      rw [hdrop] at h1
      have h2 := congrArg List.reverse h1
      rw [List.reverse_reverse] at h2
      exact h2.symm.trans (by simp)
    split at h
    · cases h
    · rename_i parent hwalk
      split at h
      · cases h
      · rename_i hdir
        split at h
        · cases h
        · rename_i hdot
          split at h
          · cases h
          · rename_i hdotdot
            simp only [Except.ok.injEq] at h
            exact ⟨_, last, _, parent, hsplit, hlast, hdot, hdotdot, hwalk,
              by simpa using hdir, h.symm⟩

theorem FS.entry_ok_name (fs : FS) (name : Str) (loc : Loc) (h : fs.entry name = .ok loc) :
    name ≠ [] := by
  intro h0
  subst h0
  simp [FS.entry, splitOn] at h

theorem FS.stat_erase_entry (fs : FS) (name : Str) (loc : Loc) (h : fs.entry name = .ok loc) :
    (fs.erase loc).stat name = none := by
  obtain ⟨parents, last, trail, parent, hsplit, hlast, hdot, hdotdot, hwalk, hdir, hloc⟩ :=
    FS.entry_ok fs name loc h
  have hname := FS.entry_ok_name fs name loc h
  have hne : loc ≠ [] := by
    rw [hloc]
    simp
  have hresolve : (fs.erase loc).resolve name = none := by
    unfold FS.resolve
    rw [if_neg hname, hsplit]
    have hstart : (fs.erase loc).start name = fs.start name := rfl
    rw [hstart]
    obtain ⟨sub2, hsub2⟩ := FS.walk_eq_walkWith (fs.erase loc) maxSymlinks
    have hpre := FS.walk_erase fs loc hne maxSymlinks (fs.start name) parents
    rw [hsub2] at hpre ⊢
    rw [FS.walkWith_append]
    rcases hpre with h1 | h1
    · rw [h1]
      rfl
    · rw [h1, hwalk]
      have key : (fs.erase loc).walkWith sub2 parent (last :: trail) = none := by
        rw [FS.walkWith]
        by_cases hd : (fs.erase loc).node parent ≠ some .dir
        · rw [if_pos hd]
        · rw [if_neg hd, if_neg (by simp [hlast, hdot]), if_neg hdotdot, ← hloc,
            FS.node_erase_self fs loc hne]
      simpa using key
  unfold FS.stat
  rw [hresolve]

theorem FS.remove_ok (fs fs2 : FS) (name : Str) (h : fs.remove name = .ok fs2) :
    ∃ loc, fs.entry name = .ok loc ∧ fs2 = fs.erase loc ∧ fs.node loc ≠ none := by
  unfold FS.remove at h
  cases hentry : fs.entry name with
  | error err =>
    rw [hentry] at h
    cases h
  | ok loc =>
    rw [hentry] at h
    simp only at h
    cases hnode : fs.node loc with
    | none =>
      rw [hnode] at h
      cases h
    | some nd =>
      rw [hnode] at h
      refine ⟨loc, rfl, ?_, by simp [hnode]⟩
      cases nd with
      | dir =>
        simp only at h
        split at h
        · cases h
        · simp only [Except.ok.injEq] at h
          exact h.symm
      | file content =>
        simp only at h
        split at h
        · cases h
        · simp only [Except.ok.injEq] at h
          exact h.symm
      | symlink target =>
        simp only at h
        split at h
        · cases h
        · simp only [Except.ok.injEq] at h
          exact h.symm


/-! ## The claims about the lifecycle handlers -/

/-- What `resourceArtifactCustomizeDiff` attempts: when the missing-destination
shortcut is not taken and request building and `GetChecksum` both succeed, it
calls `d.ForceNew` on `sum` and `sum64`, in this order, exactly when the engine
returned a checksum and either no previous `sum` is stored or the stored one
differs from the fresh one, and calls it on nothing otherwise; it returns no
error; the keys that end up flagged are those among the attempted ones that
have a change in the plan. -/
theorem resourceArtifactCustomizeDiff_attempts (client : Client) (d : ResourceDiff)
    (fs fs1 : FS) (req : Request) (checksum : Option FileChecksum)
    (hshort : ¬ (d.attrs.required = true ∧ fs.stat d.attrs.dest = none))
    (hreq : resourceArtifactRequest d.attrs = .ok req)
    (hsum : client.GetChecksum req fs = (fs1, .ok checksum)) :
    (resourceArtifactCustomizeDiff client d fs).forceNewCalls =
      (if checksum ≠ none ∧
          (d.attrs.sum = none ∨ d.attrs.sum ≠ some (resourceArtifactSum checksum).1)
        then [lit "sum", lit "sum64"] else []) ∧
    (resourceArtifactCustomizeDiff client d fs).forced =
      (resourceArtifactCustomizeDiff client d fs).forceNewCalls.filter
        (fun key => decide (key ∈ d.changed)) ∧
    (resourceArtifactCustomizeDiff client d fs).err = none := by
  have hcd : resourceArtifactCustomizeDiff client d fs =
      if (resourceArtifactSum checksum).2.2 = true ∧
          (¬ (GetOk d.attrs.sum).2 = true ∨ (GetOk d.attrs.sum).1 ≠ (resourceArtifactSum checksum).1)
      then { fs := fs1, calls := [.GetChecksum req], forceNewCalls := [lit "sum", lit "sum64"],
             forced := forceNewDropErr d [lit "sum", lit "sum64"] }
      else { fs := fs1, calls := [.GetChecksum req] } := by
    simp only [resourceArtifactCustomizeDiff, if_neg hshort, hreq, hsum]
  have hdrop : forceNewDropErr d [lit "sum", lit "sum64"] =
      [lit "sum", lit "sum64"].filter (fun key => decide (key ∈ d.changed)) := by
    unfold forceNewDropErr ResourceDiff.ForceNew
    congr 1
    funext key
    by_cases hk : key ∈ d.changed <;> simp [hk]
  rw [hcd]
  cases checksum with
  | none => simp [resourceArtifactSum]
  | some c =>
    have hfresh : (resourceArtifactSum (some c)).1 ≠ [] := by
      rw [resourceArtifactSum_some_fst]
      exact FileChecksum_String_ne_nil c
    have hpresent : (resourceArtifactSum (some c)).2.2 = true := resourceArtifactSumOf_present _
    cases hprev : d.attrs.sum with
    | none => simp [GetOk, hpresent, hdrop]
    | some s =>
      by_cases hs : s = (resourceArtifactSum (some c)).1
      · simp [GetOk, hpresent, hs, hfresh]
      · by_cases h0 : s = []
        · simp [GetOk, hpresent, hs, h0, hfresh, hdrop]
        · simp [GetOk, hpresent, hs, h0, hdrop]

/-- C7, at the failing input: the plan changes nothing of the configuration,
the stored `sum` is `sha256:00` and the engine returns the SHA-256 checksum of
`abc`.  The handler calls `d.ForceNew` on `sum` and on `sum64`; both calls fail
with `No changes for` the key, the errors are dropped, no key is flagged for
forced replacement, and no error is returned, although the stored `sum`
differs from the fresh one. -/
theorem resourceArtifactCustomizeDiff_stale_sum_not_forced :
    (resourceArtifactSum (some testChecksumAbc)).1 =
      lit "sha256:ba7816bf8f01cfea414140de5dae2223b00361a396177a9cb410ff61f20015ad" ∧
    staleSumDiff.attrs.sum = some (lit "sha256:00") ∧
    (resourceArtifactCustomizeDiff (constClient (some testChecksumAbc)) staleSumDiff {}).forceNewCalls
      = [lit "sum", lit "sum64"] ∧
    staleSumDiff.ForceNew (lit "sum") = some (.noChanges (lit "sum")) ∧
    staleSumDiff.ForceNew (lit "sum64") = some (.noChanges (lit "sum64")) ∧
    (resourceArtifactCustomizeDiff (constClient (some testChecksumAbc)) staleSumDiff {}).forced
      = [] ∧
    (resourceArtifactCustomizeDiff (constClient (some testChecksumAbc)) staleSumDiff {}).err
      = none := by
  decide

/-- C8, refuted: with `dest` written `/tmp/d5/./dest.txt`, the path
`/tmp/d5/dest.txt`, which is another path, exists before the deletion and is
gone after it; so a path other than `dest` is removed. -/
theorem resourceArtifactDelete_removes_alias :
    lit "/tmp/d5/dest.txt" ≠ lit "/tmp/d5/./dest.txt" ∧
    testFS.stat (lit "/tmp/d5/dest.txt") = some (.file (lit "abc")) ∧
    (resourceArtifactDelete { attrs := { dest := lit "/tmp/d5/./dest.txt" } } testFS).diags =
      none ∧
    (resourceArtifactDelete { attrs := { dest := lit "/tmp/d5/./dest.txt" } }
      testFS).fs.stat (lit "/tmp/d5/dest.txt") = none ∧
    ¬ (∀ (d : ResourceData) (fs : FS) (path : Str), path ≠ d.attrs.dest →
        (resourceArtifactDelete d fs).fs.stat path = fs.stat path) := by
  refine ⟨by decide, by decide, by decide, by decide, ?_⟩
  intro h
  exact absurd
    (h { attrs := { dest := lit "/tmp/d5/./dest.txt" } } testFS (lit "/tmp/d5/dest.txt")
      (by decide))
    (by decide)

/-- C8, amended: `resourceArtifactDelete` over a filesystem state.  When `dest`
does not exist (`os.Stat` fails) it returns no error and leaves the filesystem
as it is.  When `dest` exists and its removal succeeds it returns no error, the
directory entry that `dest` names is erased and `dest` does not exist any
more.  When the removal fails it returns that error and the filesystem is as
it was.  In every case no directory entry other than the one `dest` names is
created, changed or removed, and the working directory stays. -/
theorem resourceArtifactDelete_removes_entry (d : ResourceData) (fs : FS) :
    (fs.stat d.attrs.dest = none →
      (resourceArtifactDelete d fs).diags = none ∧ (resourceArtifactDelete d fs).fs = fs) ∧
    (fs.stat d.attrs.dest ≠ none →
      (∀ fs2, fs.remove d.attrs.dest = .ok fs2 →
        (resourceArtifactDelete d fs).diags = none ∧ (resourceArtifactDelete d fs).fs = fs2 ∧
          (∃ loc, fs.entry d.attrs.dest = .ok loc ∧ fs.node loc ≠ none ∧
            fs2 = fs.erase loc ∧ fs2.node loc = none) ∧
          (resourceArtifactDelete d fs).fs.stat d.attrs.dest = none) ∧
      (∀ err, fs.remove d.attrs.dest = .error err →
        (resourceArtifactDelete d fs).diags = some (.fromRemove err) ∧
          (resourceArtifactDelete d fs).fs = fs)) ∧
    (∀ loc, fs.entry d.attrs.dest ≠ .ok loc →
      (resourceArtifactDelete d fs).fs.node loc = fs.node loc) ∧
    (resourceArtifactDelete d fs).fs.cwd = fs.cwd := by
  have hfs : (resourceArtifactDelete d fs).fs = fs ∨
      ∃ loc, fs.entry d.attrs.dest = .ok loc ∧ (resourceArtifactDelete d fs).fs = fs.erase loc := by
    unfold resourceArtifactDelete
    simp only
    split
    · split
      · left; rfl
      · rename_i fs2 hrm
        obtain ⟨loc, hentry, hfs2, _⟩ := FS.remove_ok fs fs2 _ hrm
        exact Or.inr ⟨loc, hentry, hfs2⟩
    · left; rfl
  refine ⟨?_, ?_, ?_, ?_⟩
  · intro h
    simp [resourceArtifactDelete, h]
  · intro h
    obtain ⟨node, hnode⟩ := Option.ne_none_iff_exists'.mp h
    refine ⟨?_, ?_⟩
    · intro fs2 hrm
      obtain ⟨loc, hentry, hfs2, hex⟩ := FS.remove_ok fs fs2 _ hrm
      have hne : loc ≠ [] := by
        obtain ⟨_, last, _, parent, _, _, _, _, _, _, hloc⟩ := FS.entry_ok fs _ loc hentry
        rw [hloc]
        simp
      simp only [resourceArtifactDelete, hnode, hrm, true_and]
      refine ⟨⟨loc, hentry, hex, hfs2, ?_⟩, ?_⟩
      · rw [hfs2]
        exact FS.node_erase_self fs loc hne
      · rw [hfs2]
        exact FS.stat_erase_entry fs _ loc hentry
    · intro err hrm
      simp [resourceArtifactDelete, hnode, hrm]
  · intro loc hloc
    rcases hfs with h | ⟨loc2, hentry, h⟩
    · rw [h]
    · rw [h]
      apply FS.node_erase_of_ne
      intro e
      exact hloc (e ▸ hentry)
  · rcases hfs with h | ⟨loc2, _, h⟩
    · rw [h]
    · rw [h]
      rfl

/-- Witness of the amended C8: deleting through the relative path `latest`, a
symbolic link to an existing file, erases the link and leaves the file; a
missing destination; and a directory that is not empty, written with a slash
at the end. -/
theorem resourceArtifactDelete_removes_entry_witness :
    testFS.stat (lit "latest") = some (.file (lit "abc")) ∧
    ((resourceArtifactDelete { attrs := { dest := lit "latest" } } testFS).diags = none ∧
      (resourceArtifactDelete { attrs := { dest := lit "latest" } } testFS).fs =
        testFS.erase [lit "tmp", lit "latest"] ∧
      (∃ loc, testFS.entry (lit "latest") = .ok loc ∧ testFS.node loc ≠ none ∧
        testFS.erase [lit "tmp", lit "latest"] = testFS.erase loc ∧
        (testFS.erase [lit "tmp", lit "latest"]).node loc = none) ∧
      (resourceArtifactDelete { attrs := { dest := lit "latest" } } testFS).fs.stat (lit "latest")
        = none) ∧
    (resourceArtifactDelete { attrs := { dest := lit "latest" } } testFS).fs.node
      [lit "tmp", lit "d5", lit "dest.txt"] = some (.file (lit "abc")) ∧
    ((resourceArtifactDelete { attrs := { dest := lit "/tmp/none" } } testFS).diags = none ∧
      (resourceArtifactDelete { attrs := { dest := lit "/tmp/none" } } testFS).fs = testFS) ∧
    ((resourceArtifactDelete { attrs := { dest := lit "/tmp/d5/" } } testFS).diags =
        some (.fromRemove .notEmpty) ∧
      (resourceArtifactDelete { attrs := { dest := lit "/tmp/d5/" } } testFS).fs = testFS) :=
  ⟨by decide,
    ((resourceArtifactDelete_removes_entry { attrs := { dest := lit "latest" } } testFS).2.1
      (by decide)).1 _ (by decide),
    ((resourceArtifactDelete_removes_entry { attrs := { dest := lit "latest" } }
      testFS).2.2.1 [lit "tmp", lit "d5", lit "dest.txt"] (by decide)).trans (by decide),
    (resourceArtifactDelete_removes_entry { attrs := { dest := lit "/tmp/none" } } testFS).1
      (by decide),
    ((resourceArtifactDelete_removes_entry { attrs := { dest := lit "/tmp/d5/" } } testFS).2.1
      (by decide)).2 _ (by decide)⟩


theorem resourceArtifactCreate_of_no_checksum (client : Client) (d : ResourceData) (fs : FS)
    (req : Request) (hreq : resourceArtifactRequest d.attrs = .ok req)
    (hget : (client.Get req fs).2 = none)
    (hsum : (client.GetChecksum req (client.Get req fs).1).2 = .ok none) :
    (resourceArtifactCreate client d fs).diags = none ∧
      (resourceArtifactCreate client d fs).d = { d with id := fallbackId req } := by
  have h := resourceArtifactCreate_of_checksum client d fs (client.Get req fs).1
    (client.GetChecksum req (client.Get req fs).1).1 req none hreq (Prod.ext rfl hget)
    (Prod.ext rfl hsum)
  rw [h]
  simp [resourceArtifactSum]

/-- C9, refuted: two creations that differ in the url only, with an engine that
returns no checksum, both succeed and set different identifiers; so the
fallback identifier is not the same for requests with different sources. -/
theorem resourceArtifactCreate_fallback_id_not_shared :
    (resourceArtifactCreate (constClient none)
      { attrs := { url := lit "a", mode := lit "any" } } {}).diags = none ∧
    (resourceArtifactCreate (constClient none)
      { attrs := { url := lit "b", mode := lit "any" } } {}).diags = none ∧
    (resourceArtifactCreate (constClient none)
      { attrs := { url := lit "a", mode := lit "any" } } {}).d.id =
        lit "YeOwxEKY/BwUmvv0yJlvuSQnrkHkZJuTTKSVmRt4UrhV" ∧
    (resourceArtifactCreate (constClient none)
      { attrs := { url := lit "b", mode := lit "any" } } {}).d.id =
        lit "YuOwxEKY/BwUmvv0yJlvuSQnrkHkZJuTTKSVmRt4UrhV" ∧
    ¬ (∀ req1 req2 : Request, req1.Src ≠ req2.Src → fallbackId req1 = fallbackId req2) := by
  refine ⟨by decide, by decide, by decide, by decide, ?_⟩
  intro h
  exact absurd (h { Src := lit "a" } { Src := lit "b" } (by decide)) (by decide)

/-- The identifier of the no-checksum branch of `resourceArtifactCreate`: the
unpadded standard base64 of the bytes of the request's source followed by the
SHA-256 digest of the empty input. -/
theorem fallbackId_of_create (client : Client) (d : ResourceData) (fs : FS)
    (req : Request) (hreq : resourceArtifactRequest d.attrs = .ok req)
    (hget : (client.Get req fs).2 = none)
    (hsum : (client.GetChecksum req (client.Get req fs).1).2 = .ok none) :
    (resourceArtifactCreate client d fs).d.id =
      base64RawStdEncodeToString (sha256NewSum req.Src) := by
  rw [(resourceArtifactCreate_of_no_checksum client d fs req hreq hget hsum).2]
  rfl

/-- C9, amended: when `resourceArtifactCreate` succeeds and the engine returns
no checksum, the fallback identifier depends on the source: two creations whose
requests have different source strings set different identifiers. -/
theorem resourceArtifactCreate_fallback_id_distinct (client : Client) (d1 d2 : ResourceData)
    (fs : FS) (req1 req2 : Request)
    (hreq1 : resourceArtifactRequest d1.attrs = .ok req1)
    (hget1 : (client.Get req1 fs).2 = none)
    (hsum1 : (client.GetChecksum req1 (client.Get req1 fs).1).2 = .ok none)
    (hreq2 : resourceArtifactRequest d2.attrs = .ok req2)
    (hget2 : (client.Get req2 fs).2 = none)
    (hsum2 : (client.GetChecksum req2 (client.Get req2 fs).1).2 = .ok none)
    (hsrc : req1.Src ≠ req2.Src) :
    (resourceArtifactCreate client d1 fs).diags = none ∧
    (resourceArtifactCreate client d2 fs).diags = none ∧
    (resourceArtifactCreate client d1 fs).d.id ≠ (resourceArtifactCreate client d2 fs).d.id := by
  have h1 := resourceArtifactCreate_of_no_checksum client d1 fs req1 hreq1 hget1 hsum1
  have h2 := resourceArtifactCreate_of_no_checksum client d2 fs req2 hreq2 hget2 hsum2
  refine ⟨h1.1, h2.1, ?_⟩
  rw [h1.2, h2.2]
  intro h
  exact hsrc ((fallbackId_eq_iff req1 req2).mp h)

/-- Witness of the amended C9: the urls `a` and `b`. -/
theorem resourceArtifactCreate_fallback_id_distinct_witness :
    (resourceArtifactCreate (constClient none)
      { attrs := { url := lit "a", mode := lit "any" } } {}).d.id ≠
    (resourceArtifactCreate (constClient none)
      { attrs := { url := lit "b", mode := lit "any" } } {}).d.id :=
  (resourceArtifactCreate_fallback_id_distinct (constClient none)
    { attrs := { url := lit "a", mode := lit "any" } }
    { attrs := { url := lit "b", mode := lit "any" } } {}
    { Src := lit "a", GetMode := .ModeAny } { Src := lit "b", GetMode := .ModeAny }
    (by decide) rfl rfl (by decide) rfl rfl (by decide)).2.2

/-- C10: `resourceArtifactCreate` returns an error exactly when request building
fails, `Get` fails or `GetChecksum` fails.  `Get` is the first engine call and
`GetChecksum` follows only when `Get` succeeded.  When an error is returned the
resource data, `sum`, `sum64` and the identifier included, is what it was.
When the engine returns a checksum, no error is returned, `sum` and `sum64` are
the first two outputs of `resourceArtifactSum`, and the identifier is `sum`. -/
theorem resourceArtifactCreate_errors_and_state (client : Client) (d : ResourceData) (fs : FS) :
    ((resourceArtifactCreate client d fs).diags ≠ none ↔
      (∃ err, resourceArtifactRequest d.attrs = .error err) ∨
      (∃ req, resourceArtifactRequest d.attrs = .ok req ∧
        ((client.Get req fs).2 ≠ none ∨
          ∃ err, (client.GetChecksum req (client.Get req fs).1).2 = .error err))) ∧
    ((∃ err, resourceArtifactRequest d.attrs = .error err) →
      (resourceArtifactCreate client d fs).calls = []) ∧
    (∀ req, resourceArtifactRequest d.attrs = .ok req →
      ((client.Get req fs).2 ≠ none →
        (resourceArtifactCreate client d fs).calls = [.Get req]) ∧
      ((client.Get req fs).2 = none →
        (resourceArtifactCreate client d fs).calls = [.Get req, .GetChecksum req])) ∧
    ((resourceArtifactCreate client d fs).diags ≠ none →
      (resourceArtifactCreate client d fs).d = d) ∧
    (∀ req c, resourceArtifactRequest d.attrs = .ok req → (client.Get req fs).2 = none →
      (client.GetChecksum req (client.Get req fs).1).2 = .ok (some c) →
      (resourceArtifactCreate client d fs).diags = none ∧
      (resourceArtifactCreate client d fs).d.attrs.sum = some (resourceArtifactSum (some c)).1 ∧
      (resourceArtifactCreate client d fs).d.attrs.sum64 =
        some (resourceArtifactSum (some c)).2.1 ∧
      (resourceArtifactCreate client d fs).d.id = (resourceArtifactSum (some c)).1) := by
  cases hreq : resourceArtifactRequest d.attrs with
  | error err =>
    rw [resourceArtifactCreate_of_request_error client d fs err hreq]
    simp
  | ok req =>
    rcases hget : client.Get req fs with ⟨fs1, _ | gerr⟩
    · rcases hsum : client.GetChecksum req fs1 with ⟨fs2, serr | checksum⟩
      · rw [resourceArtifactCreate_of_checksum_error client d fs fs1 fs2 req serr hreq hget hsum]
        refine ⟨?_, ?_, ?_, ?_, ?_⟩
        · simp [hget, hsum]
        · simp
        · intro r hr
          cases hr
          simp [hget]
        · simp
        · intro r c1 hr hg hs
          cases hr
          simp [hget, hsum] at hs
      · rw [resourceArtifactCreate_of_checksum client d fs fs1 fs2 req checksum hreq hget hsum]
        refine ⟨?_, ?_, ?_, ?_, ?_⟩
        · simp [hget, hsum]
        · simp
        · intro r hr
          cases hr
          simp [hget]
        · simp
        · intro r c1 hr hg hs
          cases hr
          simp only [hget, hsum, Except.ok.injEq] at hs
          subst hs
          have hpresent : (resourceArtifactSum (some c1)).2.2 = true :=
            resourceArtifactSumOf_present _
          simp [hpresent]
    · rw [resourceArtifactCreate_of_get_error client d fs fs1 req gerr hreq hget]
      refine ⟨?_, ?_, ?_, ?_, ?_⟩
      · simp [hget]
      · simp
      · intro r hr
        cases hr
        simp [hget]
      · simp
      · intro r c1 hr hg hs
        cases hr
        simp [hget] at hg

/-- Witness of C10: a creation that fails on the mode `tree` and keeps the
resource data, and one that succeeds with the SHA-256 checksum of `abc`. -/
theorem resourceArtifactCreate_errors_and_state_witness :
    (resourceArtifactCreate (constClient none)
      { attrs := { url := lit "a", mode := lit "tree" }, id := lit "old" } {}).d =
        { attrs := { url := lit "a", mode := lit "tree" }, id := lit "old" } ∧
    ((resourceArtifactCreate (constClient (some testChecksumAbc))
        { attrs := testCaseChecksum } {}).diags = none ∧
      (resourceArtifactCreate (constClient (some testChecksumAbc))
        { attrs := testCaseChecksum } {}).d.attrs.sum =
          some (resourceArtifactSum (some testChecksumAbc)).1 ∧
      (resourceArtifactCreate (constClient (some testChecksumAbc))
        { attrs := testCaseChecksum } {}).d.attrs.sum64 =
          some (resourceArtifactSum (some testChecksumAbc)).2.1 ∧
      (resourceArtifactCreate (constClient (some testChecksumAbc))
        { attrs := testCaseChecksum } {}).d.id = (resourceArtifactSum (some testChecksumAbc)).1) :=
  ⟨(resourceArtifactCreate_errors_and_state (constClient none)
      { attrs := { url := lit "a", mode := lit "tree" }, id := lit "old" } {}).2.2.2.1
      (by decide),
    (resourceArtifactCreate_errors_and_state (constClient (some testChecksumAbc))
      { attrs := testCaseChecksum } {}).2.2.2.2
      { Src := lit "foo/bar.zip?checksum=md5%3A123", Dst := lit "/tmp", GetMode := .ModeAny }
      testChecksumAbc (by decide) rfl rfl⟩

end TfGet
